import Mathlib

/-!
Verification development for the dashboard's core algorithms
(`src/dashboard.py`): locale-tolerant amount normalization
(`parse_amount_idr`), the single-pass balance recomputation
(`recompute_all_balances`), the parity check against the API
(`check_parity_against_api`), the realtime checksum watcher
(`start_realtime_sync` / `get_sheet_checksum`), and the sheet checksum
(`_compute_checksum`).

Modelling conventions: Python strings are `List Char` (ASCII-oriented
character predicates), Python floats are `ℚ` (exact arithmetic; the
configured precision `idr_decimals = 0` keeps every stored amount
integral, so binary-float granularity is immaterial on the value domain
the program produces), Python `round` is round-half-to-even, and cell
content fetched from the sheet is modelled textually. The unbounded-`ℚ`
float model is exact only below the IEEE-754 double overflow threshold;
the behaviour of `float()` at and above it — saturation to `inf` inside
the `try`, after which the final rounding outside the `try/except`
raises an uncaught `OverflowError` — is modelled separately by the
refinement `parse_chars_ieee`.
-/

namespace Dashboard

/-! ## Python string primitives -/

/-- Python `str.strip()`: drop whitespace from both ends. -/
def pyStrip (l : List Char) : List Char :=
  ((l.dropWhile Char.isWhitespace).reverse.dropWhile Char.isWhitespace).reverse

/-- Python `str.replace(a, "")` for a single-character token `a`
(single-character matches cannot overlap, so a pointwise scan is exact),
generalized to an arbitrary replacement `rep`. -/
def replaceChar (a : Char) (rep : List Char) : List Char → List Char
  | [] => []
  | c :: cs => (if c = a then rep else [c]) ++ replaceChar a rep cs

/-- Python `str.replace(ab, "")` for a two-character token: scan left to
right, removing non-overlapping occurrences. -/
def replace2 (a b : Char) : List Char → List Char
  | [] => []
  | [c] => [c]
  | c :: d :: cs =>
    if c = a ∧ d = b then replace2 a b cs
    else c :: replace2 a b (d :: cs)

/-- Python `str.replace(abc, "")` for a three-character token. -/
def replace3 (a b c : Char) : List Char → List Char
  | x :: y :: z :: cs =>
    if x = a ∧ y = b ∧ z = c then replace3 a b c cs
    else x :: replace3 a b c (y :: z :: cs)
  | l => l

/-- Python `str.split(sep)` for a single-character separator.
`"".split(sep) == [""]`. -/
def splitChar (sep : Char) : List Char → List (List Char)
  | [] => [[]]
  | c :: cs =>
    let r := splitChar sep cs
    if c = sep then [] :: r
    else (c :: r.headD []) :: r.tail

/-- Python `str.rfind(c)`: index of the last occurrence, `-1` if absent. -/
def rfind (l : List Char) (t : Char) : ℤ :=
  match l with
  | [] => -1
  | c :: cs =>
    let r := rfind cs t
    if 0 ≤ r then r + 1
    else if c = t then 0 else -1

/-- Python `str.isdigit()` (ASCII digits): nonempty and all digits. -/
def pyIsDigit (l : List Char) : Bool := !l.isEmpty && l.all Char.isDigit

/-- Python `str.upper()` (ASCII case map). -/
def pyUpper (l : List Char) : List Char := l.map Char.toUpper

/-! ## Python number primitives -/

/-- Python 3 `round(x)` on an exact value: round half to even. -/
def pythonRound (q : ℚ) : ℤ :=
  if q - (⌊q⌋ : ℚ) < 1/2 then ⌊q⌋
  else if 1/2 < q - (⌊q⌋ : ℚ) then ⌊q⌋ + 1
  else if ⌊q⌋ % 2 = 0 then ⌊q⌋ else ⌊q⌋ + 1

/-- Python `round(x, n)` for positive `n` on an exact value. -/
def pythonRoundTo (n : ℕ) (q : ℚ) : ℚ :=
  ((pythonRound (q * 10 ^ n) : ℤ) : ℚ) / 10 ^ n

/-- Python `int(x)` truncation toward zero of a float. -/
def pyTrunc (q : ℚ) : ℤ := if 0 ≤ q then ⌊q⌋ else ⌈q⌉

/-- Digit string to number, most significant digit first. -/
def digitsToNat (l : List Char) : ℕ :=
  l.foldl (fun acc c => 10 * acc + (c.toNat - '0'.toNat)) 0

/-- Syntactic decomposition done by Python `float(s)` restricted to the
cleaned alphabet that `parse_amount_idr` can feed it (digits, `.`, `-`,
`+`, parentheses): optional sign, then digits with at most one dot and at
least one digit overall. Returns `(negative, integer part, fraction part)`
or `none` when `float(s)` would raise. -/
def pyFloatParts (l : List Char) : Option (Bool × List Char × List Char) :=
  let (neg, l') :=
    match l with
    | '-' :: rest => (true, rest)
    | '+' :: rest => (false, rest)
    | _ => (false, l)
  let ip := l'.takeWhile (fun c => c ≠ '.')
  let rest := l'.dropWhile (fun c => c ≠ '.')
  let fp := rest.drop 1
  if ip.all Char.isDigit && fp.all Char.isDigit && !(ip.isEmpty && fp.isEmpty) then
    some (neg, ip, fp)
  else none

/-- Value of a decomposed float literal. -/
def pyFloatVal (neg : Bool) (ip fp : List Char) : ℚ :=
  if neg then -((digitsToNat ip : ℚ) + (digitsToNat fp : ℚ) / 10 ^ fp.length)
  else (digitsToNat ip : ℚ) + (digitsToNat fp : ℚ) / 10 ^ fp.length

/-- Python `float(s)` on a cleaned amount string; `none` models the
`ValueError` that `parse_amount_idr` catches. The value is kept as an
exact `ℚ`; CPython's `float()` additionally saturates to `inf` once the
exact value reaches the IEEE-754 overflow threshold, which the
refinement `parse_chars_ieee` tracks. -/
def pyFloat (l : List Char) : Option ℚ :=
  match pyFloatParts l with
  | some (neg, ip, fp) => some (pyFloatVal neg ip fp)
  | none => none

/-- Python `int(s)` on a string: optional surrounding whitespace, optional
sign, nonempty digit run; `none` models `ValueError`. -/
def pyIntOfStr (l : List Char) : Option ℤ :=
  let t := pyStrip l
  let (neg, t') :=
    match t with
    | '-' :: rest => (true, rest)
    | '+' :: rest => (false, rest)
    | _ => (false, t)
  if !t'.isEmpty && t'.all Char.isDigit then
    some (if neg then -(digitsToNat t' : ℤ) else (digitsToNat t' : ℤ))
  else none

/-! ## Sheet cell values -/

/-- A cell value as Python sees it: `None`, a number, or a string. -/
inductive PyVal where
  | none : PyVal
  | num : ℚ → PyVal
  | str : String → PyVal
deriving DecidableEq

/-! ## Amount normalization (`parse_amount_idr`, dashboard.py lines 94-132) -/

/-- `CONFIG['idr_decimals']`. -/
def idr_decimals : ℕ := 0

/-- Final rounding step of `parse_amount_idr`:
`float(int(round(val))) if CONFIG['idr_decimals'] == 0 else round(val, CONFIG['idr_decimals'])`. -/
def roundCfg (q : ℚ) : ℚ :=
  if idr_decimals = 0 then ((pythonRound q : ℤ) : ℚ) else pythonRoundTo idr_decimals q

/-- Sequential currency-token removal (`for token in ["Rp","rp","IDR","idr"," "]`). -/
def strip_tokens (l : List Char) : List Char :=
  replaceChar ' ' []
    (replace3 'i' 'd' 'r'
      (replace3 'I' 'D' 'R'
        (replace2 'r' 'p'
          (replace2 'R' 'p' l))))

/-- `_only_digits`: keep digits and `",.-()"` (dashboard.py lines 91-92). -/
def only_digits (l : List Char) : List Char :=
  l.filter (fun c => c.isDigit || c = ',' || c = '.' || c = '-' || c = '(' || c = ')')

/-- `s.startswith("(") and s.endswith(")")`. -/
def negWrapped (l : List Char) : Bool :=
  l.headD ' ' = '(' && l.getLastD ' ' = ')'

/-- `s[1:-1]` applied when the parenthesized-negative test fires. -/
def neg_stripped (l : List Char) : List Char :=
  if negWrapped l then (l.drop 1).dropLast else l

/-- Decimal/thousands separator disambiguation (dashboard.py lines 110-125). -/
def sep_clean (l : List Char) : List Char :=
  if l.contains ',' && l.contains '.' then
    if rfind l ',' > rfind l '.' then
      replaceChar ',' ['.'] (replaceChar '.' [] l)
    else replaceChar ',' [] l
  else if l.contains ',' then
    let parts := splitChar ',' l
    if parts.length = 2 && pyIsDigit (parts.getD 1 []) then
      replaceChar ',' ['.'] (replaceChar '.' [] l)
    else replaceChar ',' [] l
  else if l.contains '.' then
    let parts := splitChar '.' l
    if decide (1 < parts.length) && parts.tail.all (fun p => p.length = 3) then
      replaceChar '.' [] l
    else l
  else l

/-- Strip, token-remove and character-filter stage (lines 100-105). -/
def pre_clean (l : List Char) : List Char :=
  only_digits (strip_tokens (pyStrip l))

/-- The fully cleaned string handed to `float()` (lines 100-125). -/
def cleanAmount (l : List Char) : List Char :=
  sep_clean (neg_stripped (pre_clean l))

/-- String branch of `parse_amount_idr` (lines 100-132): strip and clean,
parse as float with zero fallback, apply the parenthesized sign, round. -/
def parse_chars (l : List Char) : ℚ :=
  if pyStrip l = [] then 0
  else roundCfg (if negWrapped (pre_clean l) then -((pyFloat (cleanAmount l)).getD 0)
    else (pyFloat (cleanAmount l)).getD 0)

/-- `parse_amount_idr` (dashboard.py lines 94-132). Total on `PyVal`;
the source's uncaught `OverflowError` on overflow-magnitude amount text
(and its `OverflowError`/`ValueError` on numeric `inf`/`NaN`, which
`PyVal.num : ℚ → PyVal` cannot carry) is outside this function's domain
of validity and is modelled by `parse_chars_ieee` below. -/
def parse_amount_idr : PyVal → ℚ
  | .none => 0
  | .num v => roundCfg v
  | .str s => parse_chars s.data

/-- The IEEE-754 binary64 overflow threshold: CPython `float(s)` returns
`inf` (without raising) exactly when the exact decimal value of `s` is at
least `2^1024 - 2^970` in magnitude, the round-to-nearest boundary above
the largest finite double `2^1024 - 2^971`. -/
def floatOvf : ℚ := 2 ^ 1024 - 2 ^ 970

/-- Refinement of the string branch of `parse_amount_idr` (dashboard.py
lines 100-132) that keeps the one behaviour the unbounded-`ℚ` model of
`parse_chars` abstracts away: when the cleaned string parses, `val =
float(s)` (line 126, inside the `try`) saturates to `inf` at the IEEE-754
overflow threshold instead of raising, and the final
`float(int(round(val)))` (line 132, **outside** the `try/except`, which
wraps only line 126) then raises an uncaught `OverflowError`; the
`Except.error` branch models that uncaught exception. Below the
threshold, and on unparsable or blank input, it returns exactly
`parse_chars`. -/
def parse_chars_ieee (l : List Char) : Except String ℚ :=
  if pyStrip l = [] then .ok 0
  else
    match pyFloat (cleanAmount l) with
    | some v =>
      if floatOvf ≤ |v| then
        .error "OverflowError: cannot convert float infinity to integer"
      else .ok (roundCfg (if negWrapped (pre_clean l) then -v else v))
    | Option.none => .ok (roundCfg (if negWrapped (pre_clean l) then -(0 : ℚ) else 0))

/-! ## Recompute core (`recompute_all_balances`, dashboard.py lines 343-367) -/

/-- `BANK_LIST` (dashboard.py lines 51-54): the fixed Account set. -/
def BANK_LIST : List String :=
  ["BCA", "Mandiri", "BNI", "BRI", "Cimb Niaga", "BTN", "Danamon",
   "DANA", "OVO", "GOPAY", "LINK AJA"]

/-- Number of tracked accounts. -/
def bankCount : ℕ := BANK_LIST.length

/-- A decoded ledger row as held in the dataframe: the non-money columns,
the money columns, and the per-account balance columns aligned with
`BANK_LIST` by position. -/
structure Row where
  no : ℤ
  tanggal : String
  userId : String
  bank : String
  keterangan : String
  credit : ℚ
  debit : ℚ
  saldoAkhir : ℚ
  banks : List ℚ
deriving DecidableEq

instance : Inhabited Row := ⟨⟨0, "", "", "", "", 0, 0, 0, []⟩⟩

/-- `str(r.get("Bank/EWallet", "")).strip()` as a `String`. -/
def strippedBank (r : Row) : String := ⟨pyStrip r.bank.data⟩

/-- `is_system_init = (user == "SYSTEM" and bank.upper() == "SALDO AWAL")`
with `user = str(...).strip().upper()` (dashboard.py lines 351-355). -/
def is_system_init (r : Row) : Bool :=
  pyUpper (pyStrip r.userId.data) == "SYSTEM".data &&
  pyUpper (pyStrip r.bank.data) == "SALDO AWAL".data

/-- First index of `x` in a list, `none` if absent (`bank in BANK_LIST`
membership plus the dict-key position of that bank). -/
def idxOf? (x : String) : List String → Option ℕ
  | [] => Option.none
  | b :: bs => if b = x then some 0 else (idxOf? x bs).map (· + 1)

/-- Reset-row overwrite of the running-balance table from the row's own
per-account fields: `running[b] = float(val) if pd.notna(val) else 0.0`
for every bank column `b` (missing columns were created as `0.0`,
lines 344-346, which the `getD` default models). -/
def reset_banks (r : Row) : List ℚ :=
  (List.range bankCount).map (fun i => r.banks.getD i 0)

/-- One row's effect on the running-balance table (lines 351-362). -/
def apply_row (running : List ℚ) (r : Row) : List ℚ :=
  if is_system_init r then reset_banks r
  else
    match idxOf? (strippedBank r) BANK_LIST with
    | some i => running.set i (running.getD i 0 + (r.credit - r.debit))
    | Option.none => running

/-- Emission of a row: copy, overwrite the bank columns from the running
table and set `Saldo Akhir` to their sum (lines 363-366). -/
def emit_row (running : List ℚ) (r : Row) : Row :=
  { r with banks := running, saldoAkhir := running.sum }

/-- The recomputation fold, carrying the running-balance table. -/
def recomputeAux (running : List ℚ) : List Row → List Row
  | [] => []
  | r :: rs =>
    let running' := apply_row running r
    emit_row running' r :: recomputeAux running' rs

/-- `running = {b: 0.0 for b in BANK_LIST}` (line 347). -/
def zeroBanks : List ℚ := BANK_LIST.map (fun _ => (0 : ℚ))

/-- `recompute_all_balances` (dashboard.py lines 343-367). -/
def recompute_all_balances (rows : List Row) : List Row :=
  recomputeAux zeroBanks rows

/-- Running-balance table after processing a row prefix. -/
def runState (rows : List Row) : List ℚ := rows.foldl apply_row zeroBanks

/-- Per-account balances of the `i`-th emitted record. -/
def banksAt (rows : List Row) (i : ℕ) : List ℚ :=
  ((recompute_all_balances rows).getD i default).banks

/-- Per-account balances of the record before position `i` (all zero
before the first row). -/
def prevBanksAt (rows : List Row) (i : ℕ) : List ℚ :=
  if i = 0 then zeroBanks else banksAt rows (i - 1)

/-! ## Raw rows, decoding and materialization (`get_all_data`,
dashboard.py lines 259-319) -/

/-- A raw row in the store's fixed column schema (`HEADERS`): untyped
cells for the money columns, textual cells elsewhere. -/
structure RawRow where
  no : PyVal
  tanggal : String
  userId : String
  bank : String
  keterangan : String
  credit : PyVal
  debit : PyVal
  saldoAkhir : PyVal
  banks : List PyVal
deriving DecidableEq

/-- `int(item.get("No.", 0) or 0)` with the surrounding `try/except`
falling back to `0` (lines 297-300). -/
def pyInt : PyVal → ℤ
  | .none => 0
  | .num q => pyTrunc q
  | .str s => (pyIntOfStr s.data).getD 0

/-- Field-level decoding of a raw row: money columns through
`parse_amount_idr`, `No.` coerced to int, text carried verbatim
(lines 286-301). -/
def decodeRow (r : RawRow) : Row :=
  { no := pyInt r.no
    tanggal := r.tanggal
    userId := r.userId
    bank := r.bank
    keterangan := r.keterangan
    credit := parse_amount_idr r.credit
    debit := parse_amount_idr r.debit
    saldoAkhir := parse_amount_idr r.saldoAkhir
    banks := r.banks.map parse_amount_idr }

/-- Writing a snapshot record back as a raw row in the store's column
schema: numbers become numeric cells, text is carried verbatim. -/
def materializeRow (r : Row) : RawRow :=
  { no := .num (r.no : ℚ)
    tanggal := r.tanggal
    userId := r.userId
    bank := r.bank
    keterangan := r.keterangan
    credit := .num r.credit
    debit := .num r.debit
    saldoAkhir := .num r.saldoAkhir
    banks := r.banks.map PyVal.num }

/-- Materialize a whole snapshot. -/
def materialize (rows : List Row) : List RawRow := rows.map materializeRow

/-- Recomputation as applied to fetched raw rows: decode every row, then
run `recompute_all_balances` (the `get_all_data` pipeline, lines 286-309). -/
def recompute_pipeline (raws : List RawRow) : List Row :=
  recompute_all_balances (raws.map decodeRow)

/-! ## Parity check (`check_parity_against_api`, dashboard.py lines 921-976) -/

/-- `HEADERS` (dashboard.py lines 56-59). -/
def HEADERS : List String :=
  ["No.", "Tanggal", "User ID", "Bank/EWallet", "Keterangan",
   "Credit", "Debit", "Saldo Akhir"] ++ BANK_LIST

/-- Index of the last occurrence of header name `h` (the dict
comprehension `{h: i for i, h in enumerate(header)}` keeps the last
index for duplicate names). -/
def lastIdxOf (header : List String) (h : String) : Option ℕ :=
  ((header.enum.filter (fun p => p.2 == h)).getLast?).map (fun p => p.1)

/-- Fallback cell lookup through the `"Saldo Akhir {bank}"` alternative
column name, else `""` (lines 936-939). -/
def cellFallback (header row : List String) (h : String) : String :=
  if h ∈ BANK_LIST then
    match lastIdxOf header ("Saldo Akhir " ++ h) with
    | some i => if i < row.length then row.getD i "" else ""
    | Option.none => ""
  else ""

/-- Cell lookup by header name with bounds check and bank-column
fallback (lines 933-939). -/
def cellFor (header row : List String) (h : String) : String :=
  match lastIdxOf header h with
  | some i => if i < row.length then row.getD i "" else cellFallback header row h
  | Option.none => cellFallback header row h

/-- Decode one fetched sheet row against the fetched header row
(lines 930-945); cell content is modelled textually. -/
def decodeGridRow (header row : List String) : Row :=
  { no := pyInt (.str (cellFor header row "No."))
    tanggal := cellFor header row "Tanggal"
    userId := cellFor header row "User ID"
    bank := cellFor header row "Bank/EWallet"
    keterangan := cellFor header row "Keterangan"
    credit := parse_chars (cellFor header row "Credit").data
    debit := parse_chars (cellFor header row "Debit").data
    saldoAkhir := parse_chars (cellFor header row "Saldo Akhir").data
    banks := BANK_LIST.map (fun b => parse_chars (cellFor header row b).data) }

/-- `df_raw["No."] = range(1, len(df_raw)+1)` (line 951). -/
def renumber (rows : List Row) : List Row :=
  rows.enum.map (fun p => { p.2 with no := (p.1 : ℤ) + 1 })

/-- The independent snapshot the parity check recomputes from the raw
fetch (lines 930-951). -/
def api_snapshot (vals : List (List String)) : List Row :=
  renumber (recompute_all_balances ((vals.tail).map (decodeGridRow (vals.headD []))))

/-- Parity verdict. -/
inductive Verdict where
  | OK : Verdict
  | Drift : Verdict
  | Unknown : Verdict
deriving DecidableEq

/-- Result of a parity check: the verdict plus the detail text written to
`parity_details_last` (`none` when the code leaves it untouched). -/
structure ParityResult where
  verdict : Verdict
  details : Option (List String)
deriving DecidableEq

/-- Float comparison tolerance used by every monetary parity check
(`> 1e-6`, lines 957-964). -/
def tol : ℚ := 1 / 1000000

/-- `df["Credit"].sum()`. -/
def creditTotal (rows : List Row) : ℚ := (rows.map Row.credit).sum

/-- `df["Debit"].sum()`. -/
def debitTotal (rows : List Row) : ℚ := (rows.map Row.debit).sum

/-- `df.iloc[-1]`. -/
def lastRowOf (rows : List Row) : Row := rows.getLastD default

/-- Decimal rendering of `int(x)` used inside detail messages. -/
def intStr (q : ℚ) : String := toString (pyTrunc q)

/-- The row-count comparison (line 953-954). -/
def countDiff (api ui : List Row) : List String :=
  if api.length ≠ ui.length then
    ["Jumlah baris berbeda -> API:" ++ toString api.length ++
      " vs Dashboard:" ++ toString ui.length]
  else []

/-- The aggregate-credit comparison (lines 957-958). -/
def creditDiff (api ui : List Row) : List String :=
  if |creditTotal api - creditTotal ui| > tol then ["Total Credit berbeda"] else []

/-- The aggregate-debit comparison (lines 959-960). -/
def debitDiff (api ui : List Row) : List String :=
  if |debitTotal api - debitTotal ui| > tol then ["Total Debit berbeda"] else []

/-- The last-record aggregate-balance comparison (lines 961-962). -/
def saldoDiff (api ui : List Row) : List String :=
  if |(lastRowOf api).saldoAkhir - (lastRowOf ui).saldoAkhir| > tol then
    ["Saldo Akhir terakhir berbeda (" ++ intStr (lastRowOf api).saldoAkhir ++
      " vs " ++ intStr (lastRowOf ui).saldoAkhir ++ ")"]
  else []

/-- The per-account last-record comparisons (lines 963-965). -/
def bankDiffs (api ui : List Row) : List String :=
  (List.range bankCount).filterMap (fun i =>
    if |(lastRowOf api).banks.getD i 0 - (lastRowOf ui).banks.getD i 0| > tol then
      some (BANK_LIST.getD i "" ++ " terakhir berbeda (" ++
        intStr ((lastRowOf api).banks.getD i 0) ++ " vs " ++
        intStr ((lastRowOf ui).banks.getD i 0) ++ ")")
    else Option.none)

/-- The diff list built by the parity check (lines 952-965), in source
order: row count first, then the four monetary comparisons guarded by
both frames being nonempty. -/
def parityDiffs (api ui : List Row) : List String :=
  countDiff api ui ++
    (if api ≠ [] ∧ ui ≠ [] then
      creditDiff api ui ++ (debitDiff api ui ++ (saldoDiff api ui ++ bankDiffs api ui))
     else [])

/-- `check_parity_against_api` (dashboard.py lines 921-976) as a function
of the raw fetch outcome (`Except` models the exception path) and the
currently cached snapshot `self.data`. -/
def check_parity_against_api (fetch : Except String (List (List String)))
    (cached : List Row) : ParityResult :=
  match fetch with
  | .error e => ⟨.Unknown, some ["Gagal cek parity: " ++ e]⟩
  | .ok vals =>
    if vals.length < 2 then ⟨.Unknown, Option.none⟩
    else if (vals.tail).map (decodeGridRow (vals.headD [])) = [] then ⟨.Unknown, Option.none⟩
    else if parityDiffs (api_snapshot vals) cached ≠ [] then
      ⟨.Drift, some (parityDiffs (api_snapshot vals) cached)⟩
    else ⟨.OK, some ["Semua cocok (Dashboard = API)."]⟩

/-- The mismatch condition of the parity claim: at least one of the five
comparisons (row count; aggregate credit sum; aggregate debit sum; last
record's aggregate balance; last record's per-account balance for every
Account) differs between the freshly recomputed snapshot and the cached
snapshot. -/
def parityMismatch (api ui : List Row) : Prop :=
  api.length ≠ ui.length ∨
    (api ≠ [] ∧ ui ≠ [] ∧
      (creditTotal api ≠ creditTotal ui ∨ debitTotal api ≠ debitTotal ui ∨
        (lastRowOf api).saldoAkhir ≠ (lastRowOf ui).saldoAkhir ∨
        ∃ j, j < bankCount ∧
          (lastRowOf api).banks.getD j 0 ≠ (lastRowOf ui).banks.getD j 0))

/-! ## Realtime watcher (`start_realtime_sync`, dashboard.py lines 661-673,
and `get_sheet_checksum`, lines 251-257) -/

/-- The watcher-visible sync state: the manager's connectivity flag and
the last observed checksum (`self._last_sheet_checksum`, `None` at
startup). -/
structure WatchState where
  connected : Bool
  lastChecksum : Option String
deriving DecidableEq

/-- One iteration of the watcher loop body after the interval sleep
(lines 665-670): a `none` fetch models `get_sheet_checksum` returning
`None` after catching an error. Returns the updated state and whether a
reload was dispatched. -/
def watcher_cycle (st : WatchState) (fetch : Option String) : WatchState × Bool :=
  match fetch with
  | Option.none => (st, false)
  | some cs =>
    if cs ≠ "" ∧ some cs ≠ st.lastChecksum then
      ({ st with lastChecksum := some cs }, true)
    else (st, false)

/-- The watcher loop over a finite schedule of interval ticks, one fetch
outcome per tick. -/
def watcher_run (st : WatchState) : List (Option String) → WatchState × List Bool
  | [] => (st, [])
  | f :: fs =>
    let c := watcher_cycle st f
    let rest := watcher_run c.1 fs
    (rest.1, c.2 :: rest.2)

/-! ## Sheet checksum (`_compute_checksum`, dashboard.py lines 246-249):
`json.dumps(values_2d, ensure_ascii=False, separators=(",", ":"))`
followed by `hashlib.sha1(...).hexdigest()`. Cell content is modelled
textually, so a grid is a `List (List String)`. -/

/-- Lower-case hex digit. -/
def hexDigitChar (n : ℕ) : Char :=
  if n < 10 then Char.ofNat ('0'.toNat + n) else Char.ofNat ('a'.toNat + (n - 10))

/-- Whether `json.dumps` escapes the character (`"`, `\`, controls). -/
def needsEsc (c : Char) : Bool := c = '"' || c = '\\' || c.toNat < 32

/-- The escape body emitted after the backslash for an escaped character:
the named two-character escapes of `json`, else `\u00XX` lower-case. -/
def escTail (c : Char) : List Char :=
  if c = '"' then ['"']
  else if c = '\\' then ['\\']
  else if c = '\n' then ['n']
  else if c = '\t' then ['t']
  else if c = '\r' then ['r']
  else if c.toNat = 8 then ['b']
  else if c.toNat = 12 then ['f']
  else ['u', '0', '0', hexDigitChar (c.toNat / 16), hexDigitChar (c.toNat % 16)]

/-- `json.dumps` encoding of one character inside a string literal
(`ensure_ascii=False`: non-ASCII is carried verbatim). -/
def escChar (c : Char) : List Char :=
  if needsEsc c then '\\' :: escTail c else [c]

/-- Escaped body of a JSON string literal. -/
def escList (s : List Char) : List Char := (s.map escChar).flatten

/-- JSON string literal. -/
def encStr (s : String) : List Char := '"' :: (escList s.data ++ ['"'])

/-- Comma-joined row body (`separators=(",", ":")`: no whitespace). -/
def encRowBody : List String → List Char
  | [] => []
  | [s] => encStr s
  | s :: ss => encStr s ++ ',' :: encRowBody ss

/-- JSON encoding of one row. -/
def encRow (r : List String) : List Char := '[' :: (encRowBody r ++ [']'])

/-- Comma-joined grid body. -/
def encGridBody : List (List String) → List Char
  | [] => []
  | [r] => encRow r
  | r :: rs => encRow r ++ ',' :: encGridBody rs

/-- `packed = json.dumps(values_2d, ensure_ascii=False, separators=(",", ":"))`. -/
def packed (g : List (List String)) : List Char := '[' :: (encGridBody g ++ [']'])

/-- UTF-8 encoding of one character, as a list of byte values. -/
def utf8Char (c : Char) : List ℕ :=
  let n := c.toNat
  if n < 128 then [n]
  else if n < 2048 then [192 + n / 64, 128 + n % 64]
  else if n < 65536 then [224 + n / 4096, 128 + (n / 64) % 64, 128 + n % 64]
  else [240 + n / 262144, 128 + (n / 4096) % 64, 128 + (n / 64) % 64, 128 + n % 64]

/-- `packed.encode("utf-8")`. -/
def utf8Encode (l : List Char) : List ℕ := (l.map utf8Char).flatten

/-! ### SHA-1 over a byte list -/

/-- `2^32`, the word modulus. -/
def w32 : ℕ := 4294967296

/-- Left rotation of a 32-bit word. -/
def rotl (n x : ℕ) : ℕ := ((x * 2 ^ n) % w32) + x / 2 ^ (32 - n)

/-- Merkle-Damgard padding: `0x80`, zeros to 56 mod 64, then the bit
length as 8 big-endian bytes. -/
def sha1Pad (msg : List ℕ) : List ℕ :=
  let lenBits := 8 * msg.length
  let k := (119 - msg.length % 64) % 64
  msg ++ [128] ++ List.replicate k 0 ++
    (List.range 8).map (fun i => (lenBits / 2 ^ (8 * (7 - i))) % 256)

/-- Split into 64-byte chunks (the padded message length is always a
multiple of 64). -/
def sha1Chunks (l : List ℕ) : List (List ℕ) :=
  if _hlt : l.length < 64 then []
  else l.take 64 :: sha1Chunks (l.drop 64)
  termination_by l.length
  decreasing_by simp; omega

/-- Big-endian 32-bit word from up to four bytes. -/
def be32 (bytes : List ℕ) : ℕ :=
  bytes.foldl (fun acc b => acc * 256 + b % 256) 0

/-- Message-schedule extension step: append
`rotl1 (w[i-3] xor w[i-8] xor w[i-14] xor w[i-16])`. -/
def sha1ExtendStep (w : List ℕ) : List ℕ :=
  w ++ [rotl 1 (Nat.xor (Nat.xor (w.getD (w.length - 3) 0) (w.getD (w.length - 8) 0))
                (Nat.xor (w.getD (w.length - 14) 0) (w.getD (w.length - 16) 0)))]

/-- 80-word message schedule of one chunk. -/
def sha1Schedule (chunk : List ℕ) : List ℕ :=
  (List.range 64).foldl (fun w _ => sha1ExtendStep w)
    ((List.range 16).map (fun i => be32 ((chunk.drop (4 * i)).take 4)))

/-- Working state of the compression function. -/
structure SHA1State where
  a : ℕ
  b : ℕ
  c : ℕ
  d : ℕ
  e : ℕ

/-- Round function `f` of SHA-1 (bitwise not as xor with the full mask). -/
def sha1F (i b c d : ℕ) : ℕ :=
  if i < 20 then Nat.lor (Nat.land b c) (Nat.land (Nat.xor b (w32 - 1)) d)
  else if i < 40 then Nat.xor (Nat.xor b c) d
  else if i < 60 then Nat.lor (Nat.lor (Nat.land b c) (Nat.land b d)) (Nat.land c d)
  else Nat.xor (Nat.xor b c) d

/-- Round constant `k` of SHA-1. -/
def sha1K (i : ℕ) : ℕ :=
  if i < 20 then 1518500249
  else if i < 40 then 1859775393
  else if i < 60 then 2400959708
  else 3395469782

/-- One compression round. -/
def sha1RoundStep (w : List ℕ) (st : SHA1State) (i : ℕ) : SHA1State :=
  let temp := (rotl 5 st.a + sha1F i st.b st.c st.d + st.e + sha1K i + w.getD i 0) % w32
  ⟨temp, st.a, rotl 30 st.b, st.c, st.d⟩

/-- Process one 64-byte chunk. -/
def sha1ProcessChunk (h : ℕ × ℕ × ℕ × ℕ × ℕ) (chunk : List ℕ) : ℕ × ℕ × ℕ × ℕ × ℕ :=
  let w := sha1Schedule chunk
  let st := (List.range 80).foldl (sha1RoundStep w) ⟨h.1, h.2.1, h.2.2.1, h.2.2.2.1, h.2.2.2.2⟩
  ((h.1 + st.a) % w32, (h.2.1 + st.b) % w32, (h.2.2.1 + st.c) % w32,
   (h.2.2.2.1 + st.d) % w32, (h.2.2.2.2 + st.e) % w32)

/-- SHA-1 initialization vector. -/
def sha1Init : ℕ × ℕ × ℕ × ℕ × ℕ :=
  (1732584193, 4023233417, 2562383102, 271733878, 3285377520)

/-- Combine the five hash words into one 160-bit number. -/
def sha1Combine (t : ℕ × ℕ × ℕ × ℕ × ℕ) : ℕ :=
  ((((t.1 % w32) * w32 + t.2.1 % w32) * w32 + t.2.2.1 % w32) * w32 +
    t.2.2.2.1 % w32) * w32 + t.2.2.2.2 % w32

/-- SHA-1 digest of a byte list, as a number below `2^160`. -/
def sha1Nat (msg : List ℕ) : ℕ :=
  sha1Combine ((sha1Chunks (sha1Pad msg)).foldl sha1ProcessChunk sha1Init)

/-- 40-character lower-case hex rendering (`hexdigest()`). -/
def toHex40 (n : ℕ) : String :=
  ⟨(List.range 40).map (fun i => hexDigitChar ((n / 16 ^ (39 - i)) % 16))⟩

/-- `_compute_checksum` (dashboard.py lines 246-249). -/
def compute_checksum (g : List (List String)) : String :=
  toHex40 (sha1Nat (utf8Encode (packed g)))

/-- `get_sheet_checksum` (dashboard.py lines 251-257): the checksum of a
successful fetch, `None` when the fetch raised. -/
def get_sheet_checksum (fetch : Except String (List (List String))) : Option String :=
  match fetch with
  | .error _ => Option.none
  | .ok vals => some (compute_checksum vals)

/-! ## Integrality of amounts -/

/-- An amount is integral (a whole number of currency units). -/
def IsInt (q : ℚ) : Prop := ∃ n : ℤ, q = (n : ℚ)

/-- A record whose money fields are all integral. -/
def RowInt (r : Row) : Prop :=
  IsInt r.credit ∧ IsInt r.debit ∧ IsInt r.saldoAkhir ∧ ∀ q ∈ r.banks, IsInt q

/-! ## Rounding lemmas -/

theorem pythonRound_intCast (n : ℤ) : pythonRound (n : ℚ) = n := by
  unfold pythonRound
  rw [Int.floor_intCast]
  norm_num

theorem pythonRound_of_le_of_lt (n : ℤ) (q : ℚ) (h0 : (n : ℚ) ≤ q)
    (h1 : q < (n : ℚ) + 1/2) : pythonRound q = n := by
  have hf : ⌊q⌋ = n := by
    rw [Int.floor_eq_iff]
    refine ⟨h0, by linarith⟩
  unfold pythonRound
  rw [hf, if_pos (by linarith)]

theorem pythonRound_of_lt_of_lt (n : ℤ) (q : ℚ) (h0 : (n : ℚ) + 1/2 < q)
    (h1 : q < (n : ℚ) + 1) : pythonRound q = n + 1 := by
  have hf : ⌊q⌋ = n := by
    rw [Int.floor_eq_iff]
    refine ⟨by linarith, by linarith⟩
  unfold pythonRound
  rw [hf, if_neg (by linarith), if_pos (by linarith)]

theorem roundCfg_eq (q : ℚ) : roundCfg q = ((pythonRound q : ℤ) : ℚ) := by
  simp [roundCfg, idr_decimals]

theorem roundCfg_intCast (n : ℤ) : roundCfg (n : ℚ) = (n : ℚ) := by
  rw [roundCfg_eq, pythonRound_intCast]

theorem roundCfg_isInt (q : ℚ) : IsInt (roundCfg q) :=
  ⟨pythonRound q, roundCfg_eq q⟩

theorem pyTrunc_intCast (n : ℤ) : pyTrunc (n : ℚ) = n := by
  unfold pyTrunc
  split
  · exact Int.floor_intCast n
  · exact Int.ceil_intCast n

theorem isInt_zero : IsInt (0 : ℚ) := ⟨0, by norm_num⟩

theorem parse_chars_isInt (l : List Char) : IsInt (parse_chars l) := by
  unfold parse_chars
  split
  · exact isInt_zero
  · exact roundCfg_isInt _

theorem parse_amount_idr_isInt (v : PyVal) : IsInt (parse_amount_idr v) := by
  cases v with
  | none => exact isInt_zero
  | num q => exact roundCfg_isInt q
  | str s => exact parse_chars_isInt s.data

theorem IsInt.add {a b : ℚ} (ha : IsInt a) (hb : IsInt b) : IsInt (a + b) := by
  obtain ⟨m, rfl⟩ := ha
  obtain ⟨n, rfl⟩ := hb
  exact ⟨m + n, by push_cast; ring⟩

theorem IsInt.sub {a b : ℚ} (ha : IsInt a) (hb : IsInt b) : IsInt (a - b) := by
  obtain ⟨m, rfl⟩ := ha
  obtain ⟨n, rfl⟩ := hb
  exact ⟨m - n, by push_cast; ring⟩

theorem isInt_sum {l : List ℚ} (h : ∀ q ∈ l, IsInt q) : IsInt l.sum := by
  induction l with
  | nil => simpa using isInt_zero
  | cons a as ih =>
    rw [List.sum_cons]
    exact (h a (List.mem_cons_self a as)).add (ih fun q hq => h q (List.mem_cons_of_mem a hq))

theorem isInt_getD {l : List ℚ} (h : ∀ q ∈ l, IsInt q) (i : ℕ) : IsInt (l.getD i 0) := by
  by_cases hi : i < l.length
  · rw [List.getD_eq_getElem l 0 hi]
    exact h _ (List.getElem_mem hi)
  · rw [List.getD_eq_default l 0 (by omega)]
    exact isInt_zero

/-! ## Evaluation helpers for concrete amounts -/

theorem pyFloat_eq (l ip fp : List Char) (neg : Bool) (q : ℚ)
    (h : pyFloatParts l = some (neg, ip, fp)) (hv : pyFloatVal neg ip fp = q) :
    pyFloat l = some q := by
  unfold pyFloat
  rw [h]
  exact congrArg some hv

theorem pyFloatVal_eval (ip fp : List Char) (a b k : ℕ)
    (ha : digitsToNat ip = a) (hb : digitsToNat fp = b) (hk : fp.length = k) :
    pyFloatVal false ip fp = (a : ℚ) + (b : ℚ) / 10 ^ k := by
  unfold pyFloatVal
  rw [if_neg (by simp), ha, hb, hk]

theorem parse_chars_eval (l cm ip fp : List Char) (q : ℚ)
    (h0 : ¬(pyStrip l = []))
    (h1 : negWrapped (pre_clean l) = false)
    (h2 : cleanAmount l = cm)
    (h3 : pyFloatParts cm = some (false, ip, fp))
    (hv : pyFloatVal false ip fp = q) :
    parse_chars l = roundCfg q := by
  unfold parse_chars
  rw [if_neg h0, h1, h2, pyFloat_eq cm ip fp false q h3 hv]
  simp

theorem parse_chars_eval_neg (l cm ip fp : List Char) (q : ℚ)
    (h0 : ¬(pyStrip l = []))
    (h1 : negWrapped (pre_clean l) = true)
    (h2 : cleanAmount l = cm)
    (h3 : pyFloatParts cm = some (false, ip, fp))
    (hv : pyFloatVal false ip fp = q) :
    parse_chars l = roundCfg (-q) := by
  unfold parse_chars
  rw [if_neg h0, h1, h2, pyFloat_eq cm ip fp false q h3 hv]
  simp

/-! ## C5: concrete normalization results -/

/-- C5: `normalize("Rp1.234.567") == 1234567`, `normalize("(500)") == -500`,
and with the configured precision 0 `normalize("1,234.56") == 1235`. -/
theorem C5_concrete_normalization :
    parse_amount_idr (.str "Rp1.234.567") = 1234567 ∧
    parse_amount_idr (.str "(500)") = -500 ∧
    parse_amount_idr (.str "1,234.56") = 1235 := by
  refine ⟨?_, ?_, ?_⟩
  · show parse_chars "Rp1.234.567".data = 1234567
    rw [parse_chars_eval "Rp1.234.567".data "1234567".data "1234567".data [] 1234567
      (by decide) (by decide) (by decide) (by decide)
      (by rw [pyFloatVal_eval "1234567".data [] 1234567 0 0 (by decide) (by decide) (by decide)]
          norm_num)]
    rw [roundCfg_eq]
    have h1 : ((1234567 : ℤ) : ℚ) = 1234567 := by norm_num
    rw [← h1, pythonRound_intCast]
  · show parse_chars "(500)".data = -500
    rw [parse_chars_eval_neg "(500)".data "500".data "500".data [] 500
      (by decide) (by decide) (by decide) (by decide)
      (by rw [pyFloatVal_eval "500".data [] 500 0 0 (by decide) (by decide) (by decide)]
          norm_num)]
    rw [roundCfg_eq]
    have h1 : (-500 : ℚ) = (((-500 : ℤ)) : ℚ) := by norm_num
    rw [h1, pythonRound_intCast]
  · show parse_chars "1,234.56".data = 1235
    rw [parse_chars_eval "1,234.56".data "1234.56".data "1234".data "56".data (1234 + 56/100)
      (by decide) (by decide) (by decide) (by decide)
      (by rw [pyFloatVal_eval "1234".data "56".data 1234 56 2 (by decide) (by decide) (by decide)]
          norm_num)]
    rw [roundCfg_eq, pythonRound_of_lt_of_lt 1234 _ (by norm_num) (by norm_num)]
    norm_num

/-! ## C6: normalization is NOT total — float overflow escapes the try/except -/

/-- The true half of the best-effort contract: whenever the cleaned
string fails to parse as a float, the `try/except` around `float(s)`
coerces the `ValueError` to `0.0` and the result is zero. -/
theorem unparsable_to_zero (s : String)
    (h : pyFloat (cleanAmount s.data) = Option.none) :
    parse_amount_idr (.str s) = 0 := by
  show parse_chars s.data = 0
  unfold parse_chars
  split
  · rfl
  · rw [h]
    show roundCfg (if negWrapped (pre_clean s.data) then -((0:ℚ)) else 0) = 0
    have h0 : (if negWrapped (pre_clean s.data) then -((0:ℚ)) else 0) = 0 := by
      split <;> norm_num
    rw [h0, roundCfg_eq]
    have h1 : ((0 : ℤ) : ℚ) = 0 := by norm_num
    rw [← h1, pythonRound_intCast]

/-- Concrete instance of the zero default at the unparsable input `"abc"`. -/
theorem unparsable_to_zero_example : parse_amount_idr (.str "abc") = 0 :=
  unparsable_to_zero "abc" (by decide)

/-- The refinement is conservative: below the overflow threshold (and on
unparsable or blank input) `parse_chars_ieee` returns `.ok` of exactly
the total model's value, so it diverges from `parse_chars` only where
the source's `float()` overflows to `inf`. -/
theorem parse_chars_ieee_agrees (l : List Char)
    (h : ∀ v : ℚ, pyFloat (cleanAmount l) = some v → |v| < floatOvf) :
    parse_chars_ieee l = .ok (parse_chars l) := by
  by_cases h0 : pyStrip l = []
  · unfold parse_chars_ieee parse_chars
    rw [if_pos h0, if_pos h0]
  · unfold parse_chars_ieee parse_chars
    rw [if_neg h0, if_neg h0]
    cases hv : pyFloat (cleanAmount l) with
    | none => rfl
    | some v => exact if_neg (not_le.mpr (h v hv))

/-- Instance of `parse_chars_ieee_agrees` at `"Rp1.234.567"`. -/
theorem parse_chars_ieee_agrees_example :
    parse_chars_ieee "Rp1.234.567".data = .ok (parse_chars "Rp1.234.567".data) := by
  refine parse_chars_ieee_agrees "Rp1.234.567".data (fun v hv => ?_)
  rw [show cleanAmount "Rp1.234.567".data = "1234567".data from by decide,
    pyFloat_eq "1234567".data "1234567".data [] false ((1234567 : ℕ) : ℚ) (by decide)
      (by rw [pyFloatVal_eval "1234567".data [] 1234567 0 0 (by decide) (by decide) (by decide)]
          norm_num)] at hv
  cases hv
  rw [abs_of_nonneg (Nat.cast_nonneg _)]
  unfold floatOvf
  norm_num

set_option maxRecDepth 40000 in
/-- C6: REFUTED as stated — amount normalization is not total on text
input. On the reachable 400-digit amount string `"9" * 400` the cleaned
string parses, its exact value `10^400 - 1` is above the IEEE-754
overflow threshold, so in the source `val = float(s)` returns `inf`
inside the `try` (line 126) and the final `float(int(round(val)))`
(line 132), which sits outside the `try/except`, raises an uncaught
`OverflowError`: the faithful refinement `parse_chars_ieee` reaches the
uncaught-exception branch and returns `.ok` of no numeric amount at
all, contradicting "never raises an error and always returns a numeric
amount". -/
theorem C6_overflow_raises :
    parse_chars_ieee (List.replicate 400 '9') =
      Except.error "OverflowError: cannot convert float infinity to integer" ∧
    ∀ q : ℚ, ¬(parse_chars_ieee (List.replicate 400 '9') = Except.ok q) := by
  have h0 : ¬(pyStrip (List.replicate 400 '9') = []) := by decide
  have hclean : cleanAmount (List.replicate 400 '9') = List.replicate 400 '9' := by decide
  have hparts : pyFloatParts (List.replicate 400 '9') =
      some (false, List.replicate 400 '9', ([] : List Char)) := by decide
  have hd : digitsToNat (List.replicate 400 '9') = 10 ^ 400 - 1 := by decide
  have hv : pyFloatVal false (List.replicate 400 '9') [] = ((10 ^ 400 - 1 : ℕ) : ℚ) := by
    rw [pyFloatVal_eval (List.replicate 400 '9') [] (10 ^ 400 - 1) 0 0 hd (by decide)
      (by decide)]
    simp
  have hpf : pyFloat (cleanAmount (List.replicate 400 '9')) =
      some ((10 ^ 400 - 1 : ℕ) : ℚ) := by
    rw [hclean]
    exact pyFloat_eq (List.replicate 400 '9') (List.replicate 400 '9') [] false _ hparts hv
  have hovf : floatOvf = ((2 ^ 1024 - 2 ^ 970 : ℕ) : ℚ) := by
    unfold floatOvf
    rw [Nat.cast_sub (Nat.pow_le_pow_right (by norm_num) (by norm_num))]
    push_cast
    ring
  have hge : floatOvf ≤ |((10 ^ 400 - 1 : ℕ) : ℚ)| := by
    rw [abs_of_nonneg (Nat.cast_nonneg _), hovf]
    exact Nat.cast_le.mpr (by decide)
  have herr : parse_chars_ieee (List.replicate 400 '9') =
      Except.error "OverflowError: cannot convert float infinity to integer" := by
    unfold parse_chars_ieee
    rw [if_neg h0, hpf]
    exact if_pos hge
  exact ⟨herr, fun q hq => by rw [herr] at hq; exact Except.noConfusion hq⟩

/-! ## C4: comma disambiguation -/

/-- The comma rule as the specification states it: the comma is a decimal
separator exactly when exactly two digits follow it. Modelled from the
spec's words for comparison against `sep_clean`. -/
def spec_comma_rule (t : List Char) : List Char :=
  if (splitChar ',' t).length = 2 ∧ ((splitChar ',' t).getD 1 []).length = 2 ∧
      ((splitChar ',' t).getD 1 []).all Char.isDigit then
    replaceChar ',' ['.'] t
  else replaceChar ',' [] t

/-- C4 counterexample: on `"1,234"` (a comma followed by three digits) the
code still treats the comma as a decimal separator, contrary to the
claim's "exactly two digits" rule: the cleaned string becomes `"1.234"`
rather than `"1234"`, and the normalized amount is 1, not 1234. -/
theorem C4_counterexample :
    ("1,234".data.contains ',' = true ∧ "1,234".data.contains '.' = false) ∧
    sep_clean "1,234".data ≠ spec_comma_rule "1,234".data ∧
    parse_amount_idr (.str "1,234") = 1 ∧ (1 : ℚ) ≠ 1234 := by
  refine ⟨by decide, by decide, ?_, by norm_num⟩
  show parse_chars "1,234".data = 1
  rw [parse_chars_eval "1,234".data "1.234".data "1".data "234".data (1 + 234/1000)
    (by decide) (by decide) (by decide) (by decide)
    (by rw [pyFloatVal_eval "1".data "234".data 1 234 3 (by decide) (by decide) (by decide)]
        norm_num)]
  rw [roundCfg_eq, pythonRound_of_le_of_lt 1 _ (by norm_num) (by norm_num)]
  norm_num

theorem replaceChar_of_not_contains {a : Char} {l : List Char} (rep : List Char)
    (h : l.contains a = false) : replaceChar a rep l = l := by
  induction l with
  | nil => rfl
  | cons c cs ih =>
    simp only [List.contains_cons, Bool.or_eq_false_iff, beq_eq_false_iff_ne, ne_eq] at h
    unfold replaceChar
    rw [if_neg (fun hc => h.1 hc.symm), ih (by simpa using h.2)]
    rfl

/-- C4 amended: for a cleaned string containing a comma and no dot, the
comma is treated as a decimal separator exactly when the string splits at
commas into exactly two parts and the part after the comma is a nonempty
run of digits of any length (Python `parts[1].isdigit()`); otherwise
every comma is removed as a thousands separator. -/
theorem C4_comma_disambiguation (t : List Char)
    (h1 : t.contains ',' = true) (h2 : t.contains '.' = false) :
    sep_clean t =
      if (splitChar ',' t).length = 2 ∧ pyIsDigit ((splitChar ',' t).getD 1 []) = true then
        replaceChar ',' ['.'] t
      else replaceChar ',' [] t := by
  have hdot : replaceChar '.' [] t = t := replaceChar_of_not_contains [] h2
  unfold sep_clean
  rw [if_neg (by rw [h1, h2]; decide), if_pos h1, hdot]
  by_cases hp : (splitChar ',' t).length = 2 ∧ pyIsDigit ((splitChar ',' t).getD 1 []) = true
  · rw [if_pos (by simp only [Bool.and_eq_true, decide_eq_true_eq]; exact hp), if_pos hp]
  · rw [if_neg (by simp only [Bool.and_eq_true, decide_eq_true_eq]; exact hp), if_neg hp]

/-- Witness for the amended C4 at `"1,5"`: a single digit after the comma
is already enough for the decimal interpretation. -/
theorem C4_witness : sep_clean "1,5".data = "1.5".data := by
  rw [C4_comma_disambiguation "1,5".data (by decide) (by decide)]
  decide

/-! ## Generic list lemmas -/

theorem getD_set_self {α : Type} (l : List α) (i : ℕ) (v d : α) (h : i < l.length) :
    (l.set i v).getD i d = v := by
  induction l generalizing i with
  | nil => simp at h
  | cons a as ih =>
    cases i with
    | zero => rfl
    | succ n =>
      rw [List.set_cons_succ, List.getD_cons_succ]
      exact ih n (Nat.lt_of_succ_lt_succ h)

theorem getD_set_ne {α : Type} (l : List α) (i j : ℕ) (v d : α) (h : i ≠ j) :
    (l.set i v).getD j d = l.getD j d := by
  induction l generalizing i j with
  | nil => simp [List.set]
  | cons a as ih =>
    cases i with
    | zero =>
      cases j with
      | zero => exact absurd rfl h
      | succ m => rw [List.set_cons_zero, List.getD_cons_succ, List.getD_cons_succ]
    | succ n =>
      cases j with
      | zero => rw [List.set_cons_succ, List.getD_cons_zero, List.getD_cons_zero]
      | succ m =>
        rw [List.set_cons_succ, List.getD_cons_succ, List.getD_cons_succ]
        exact ih n m (fun hc => h (by rw [hc]))

theorem idxOf?_some (x : String) (l : List String) (i : ℕ) (d : String)
    (h : idxOf? x l = some i) : i < l.length ∧ l.getD i d = x := by
  induction l generalizing i with
  | nil => simp [idxOf?] at h
  | cons b bs ih =>
    unfold idxOf? at h
    split at h
    · rename_i hb
      obtain rfl : (0 : ℕ) = i := Option.some_injective ℕ h
      exact ⟨Nat.succ_pos _, hb⟩
    · obtain ⟨j, hj, rfl⟩ := Option.map_eq_some'.mp h
      obtain ⟨hjl, hjd⟩ := ih j hj
      exact ⟨Nat.succ_lt_succ hjl, by rw [List.getD_cons_succ]; exact hjd⟩

theorem idxOf?_none (x : String) (l : List String)
    (h : idxOf? x l = Option.none) : x ∉ l := by
  induction l with
  | nil => simp
  | cons b bs ih =>
    unfold idxOf? at h
    split at h
    · simp at h
    · rename_i hb
      intro hmem
      rcases List.mem_cons.mp hmem with hc | hc
      · exact hb hc.symm
      · exact ih (Option.map_eq_none'.mp h) hc

theorem bank_getD_inj (i j : ℕ) (hi : i < bankCount) (hj : j < bankCount)
    (h : BANK_LIST.getD i "" = BANK_LIST.getD j "") : i = j := by
  have hd : ∀ a b : Fin 11,
      BANK_LIST.getD a.val "" = BANK_LIST.getD b.val "" → a.val = b.val := by decide
  exact hd ⟨i, hi⟩ ⟨j, hj⟩ h

theorem bank_getD_mem (j : ℕ) (hj : j < bankCount) : BANK_LIST.getD j "" ∈ BANK_LIST := by
  rw [List.getD_eq_getElem BANK_LIST "" hj]
  exact List.getElem_mem hj

/-! ## Structural lemmas about the recomputation -/

theorem recomputeAux_length (running : List ℚ) (rows : List Row) :
    (recomputeAux running rows).length = rows.length := by
  induction rows generalizing running with
  | nil => rfl
  | cons r rs ih =>
    show (emit_row (apply_row running r) r :: recomputeAux (apply_row running r) rs).length = _
    rw [List.length_cons, ih]
    rfl

theorem recomputeAux_getD (running : List ℚ) (rows : List Row) (i : ℕ)
    (h : i < rows.length) :
    (recomputeAux running rows).getD i default =
      emit_row ((rows.take (i + 1)).foldl apply_row running) (rows.getD i default) := by
  induction rows generalizing running i with
  | nil => simp at h
  | cons r rs ih =>
    cases i with
    | zero =>
      show (emit_row (apply_row running r) r :: recomputeAux (apply_row running r) rs).getD
        0 default = _
      rw [List.getD_cons_zero]
      rfl
    | succ n =>
      show (emit_row (apply_row running r) r :: recomputeAux (apply_row running r) rs).getD
        (n + 1) default = _
      rw [List.getD_cons_succ, ih (apply_row running r) n (Nat.lt_of_succ_lt_succ h)]
      rfl

theorem zeroBanks_length : zeroBanks.length = bankCount := by
  simp [zeroBanks, bankCount]

theorem reset_banks_length (r : Row) : (reset_banks r).length = bankCount := by
  simp [reset_banks]

theorem apply_row_length (running : List ℚ) (r : Row) (h : running.length = bankCount) :
    (apply_row running r).length = bankCount := by
  unfold apply_row
  split
  · exact reset_banks_length r
  · split
    · simpa using h
    · exact h

theorem foldl_apply_row_length (rows : List Row) (running : List ℚ)
    (h : running.length = bankCount) :
    (rows.foldl apply_row running).length = bankCount := by
  induction rows generalizing running with
  | nil => exact h
  | cons r rs ih => exact ih _ (apply_row_length running r h)

theorem banksAt_eq (rows : List Row) (i : ℕ) (h : i < rows.length) :
    banksAt rows i = (rows.take (i + 1)).foldl apply_row zeroBanks := by
  unfold banksAt recompute_all_balances
  rw [recomputeAux_getD zeroBanks rows i h]
  rfl

theorem prevBanksAt_eq (rows : List Row) (i : ℕ) (h : i < rows.length) :
    prevBanksAt rows i = (rows.take i).foldl apply_row zeroBanks := by
  unfold prevBanksAt
  split
  · rename_i h0
    subst h0
    rfl
  · rename_i h0
    have hi1 : i - 1 + 1 = i := by omega
    rw [banksAt_eq rows (i - 1) (by omega), hi1]

theorem take_succ_getD (rows : List Row) (i : ℕ) (h : i < rows.length) :
    rows.take (i + 1) = rows.take i ++ [rows.getD i default] := by
  rw [List.take_succ]
  congr 1
  rw [List.getElem?_eq_getElem h, List.getD_eq_getElem rows default h]
  rfl

theorem banksAt_succ_apply (rows : List Row) (i : ℕ) (h : i < rows.length) :
    banksAt rows i = apply_row (prevBanksAt rows i) (rows.getD i default) := by
  rw [banksAt_eq rows i h, prevBanksAt_eq rows i h, take_succ_getD rows i h,
    List.foldl_append]
  rfl

theorem prevBanksAt_length (rows : List Row) (i : ℕ) (h : i < rows.length) :
    (prevBanksAt rows i).length = bankCount := by
  rw [prevBanksAt_eq rows i h]
  exact foldl_apply_row_length _ _ zeroBanks_length

/-! ## C1: reset / mutation / unrecognized row semantics -/

/-- C1: at every position `i`, a reset-sentinel row (actor `SYSTEM`,
account `SALDO AWAL`, case-insensitively) overwrites all per-account
balances with the row's own per-account fields, regardless of all earlier
rows and ignoring its credit/debit (the right-hand side depends only on
the row itself); a non-reset row with a recognized account adds
`credit - debit` to exactly that account and leaves the others at their
position-`i-1` values; a non-reset row with an unrecognized account
leaves all balances at position `i` equal to those at `i-1`. -/
theorem C1_row_semantics (rows : List Row) (i : ℕ) (hi : i < rows.length) :
    (is_system_init (rows.getD i default) = true →
      banksAt rows i = reset_banks (rows.getD i default)) ∧
    (is_system_init (rows.getD i default) = false →
      ∀ j, j < bankCount →
        (BANK_LIST.getD j "" = strippedBank (rows.getD i default) →
          (banksAt rows i).getD j 0 = (prevBanksAt rows i).getD j 0 +
            ((rows.getD i default).credit - (rows.getD i default).debit)) ∧
        (BANK_LIST.getD j "" ≠ strippedBank (rows.getD i default) →
          (banksAt rows i).getD j 0 = (prevBanksAt rows i).getD j 0)) ∧
    (is_system_init (rows.getD i default) = false →
      strippedBank (rows.getD i default) ∉ BANK_LIST →
      banksAt rows i = prevBanksAt rows i) := by
  have hb := banksAt_succ_apply rows i hi
  have hlen := prevBanksAt_length rows i hi
  refine ⟨?_, ?_, ?_⟩
  · intro hsys
    rw [hb]
    unfold apply_row
    rw [if_pos hsys]
  · intro hsys j hj
    rw [hb]
    unfold apply_row
    rw [if_neg (by rw [hsys]; exact Bool.false_ne_true)]
    cases hidx : idxOf? (strippedBank (rows.getD i default)) BANK_LIST with
    | none =>
      refine ⟨?_, fun _ => rfl⟩
      intro hname
      exfalso
      have hmem := bank_getD_mem j hj
      rw [hname] at hmem
      exact idxOf?_none _ _ hidx hmem
    | some i0 =>
      obtain ⟨hi0, hgd⟩ := idxOf?_some _ _ i0 "" hidx
      constructor
      · intro hname
        have hj0 : j = i0 := bank_getD_inj j i0 hj hi0 (by rw [hname, hgd])
        subst hj0
        exact getD_set_self _ _ _ _ (by rw [hlen]; exact hj)
      · intro hname
        have hj0 : i0 ≠ j := fun hc => hname (by rw [← hc, hgd])
        exact getD_set_ne _ _ _ _ _ hj0
  · intro hsys hmem
    rw [hb]
    unfold apply_row
    rw [if_neg (by rw [hsys]; exact Bool.false_ne_true)]
    cases hidx : idxOf? (strippedBank (rows.getD i default)) BANK_LIST with
    | none => rfl
    | some i0 =>
      exfalso
      obtain ⟨hi0, hgd⟩ := idxOf?_some _ _ i0 "" hidx
      exact hmem (hgd ▸ bank_getD_mem i0 hi0)

/-- Witness row for C1: a reset-sentinel row. -/
def c1row : Row :=
  ⟨1, "01/01/2025", "SYSTEM", "SALDO AWAL", "Inisialisasi", 0, 0, 0,
    [7, 0, 0, 0, 0, 0, 0, 0, 0, 0, 0]⟩

/-- Witness for C1: applied to the one-row list `[c1row]` at position 0,
whose reset semantics the theorem instantiates. -/
theorem C1_witness : banksAt [c1row] 0 = reset_banks c1row :=
  (C1_row_semantics [c1row] 0 (by decide)).1 (by decide)

/-! ## C2: aggregate equals sum of per-account balances -/

theorem recomputeAux_saldo (running : List ℚ) (rows : List Row) :
    ∀ r ∈ recomputeAux running rows, r.saldoAkhir = r.banks.sum := by
  induction rows generalizing running with
  | nil => intro r hr; simp [recomputeAux] at hr
  | cons x xs ih =>
    intro r hr
    have hr' : r ∈ emit_row (apply_row running x) x ::
        recomputeAux (apply_row running x) xs := hr
    rcases List.mem_cons.mp hr' with h | h
    · subst h; rfl
    · exact ih _ r h

/-- C2: every record emitted by the recomputation has its aggregate
balance (`Saldo Akhir`) equal to the sum of its per-account balance
fields over the fixed Account list. -/
theorem C2_aggregate_invariant (rows : List Row) (r : Row)
    (h : r ∈ recompute_all_balances rows) : r.saldoAkhir = r.banks.sum :=
  recomputeAux_saldo zeroBanks rows r h

/-- Witness row for C2: an ordinary mutation row. -/
def c2row : Row :=
  ⟨1, "01/01/2025", "u1", "BCA", "catatan", 5, 0, 0,
    [0, 0, 0, 0, 0, 0, 0, 0, 0, 0, 0]⟩

/-- Witness for C2: the record emitted for `c2row` satisfies the
invariant. -/
theorem C2_witness :
    (emit_row (apply_row zeroBanks c2row) c2row).saldoAkhir =
      (emit_row (apply_row zeroBanks c2row) c2row).banks.sum :=
  C2_aggregate_invariant [c2row] _ (List.mem_singleton.mpr rfl)

/-! ## C10: one record per row, in order, non-balance fields unchanged -/

/-- C10: the recomputation emits exactly one record per input row, in
input order, and leaves every non-balance field (`No.`, `Tanggal`,
`User ID`, `Bank/EWallet`, `Keterangan`, `Credit`, `Debit`) unchanged;
only the per-account balance columns and `Saldo Akhir` are rewritten. -/
theorem C10_frame (rows : List Row) :
    (recompute_all_balances rows).length = rows.length ∧
    ∀ i, i < rows.length →
      ((recompute_all_balances rows).getD i default).no = (rows.getD i default).no ∧
      ((recompute_all_balances rows).getD i default).tanggal = (rows.getD i default).tanggal ∧
      ((recompute_all_balances rows).getD i default).userId = (rows.getD i default).userId ∧
      ((recompute_all_balances rows).getD i default).bank = (rows.getD i default).bank ∧
      ((recompute_all_balances rows).getD i default).keterangan =
        (rows.getD i default).keterangan ∧
      ((recompute_all_balances rows).getD i default).credit = (rows.getD i default).credit ∧
      ((recompute_all_balances rows).getD i default).debit = (rows.getD i default).debit := by
  refine ⟨recomputeAux_length zeroBanks rows, ?_⟩
  intro i hi
  unfold recompute_all_balances
  rw [recomputeAux_getD zeroBanks rows i hi]
  exact ⟨rfl, rfl, rfl, rfl, rfl, rfl, rfl⟩

/-- Witness row for C10. -/
def c10row : Row := ⟨3, "02/01/2025", "u2", "OVO", "catatan", 7, 2, 0, []⟩

/-- Witness for C10 on the one-row list `[c10row]`. -/
theorem C10_witness :
    (recompute_all_balances [c10row]).length = 1 ∧
    ((recompute_all_balances [c10row]).getD 0 default).credit = 7 := by
  have h := C10_frame [c10row]
  exact ⟨h.1, ((h.2 0 (by decide)).2.2.2.2.2.1).trans rfl⟩

/-! ## C3: idempotence of the recomputation pipeline -/

/-- The input-side integrality needed by the recomputation: credit, debit
and the bank columns are whole numbers of units. -/
def RowIntIn (r : Row) : Prop :=
  IsInt r.credit ∧ IsInt r.debit ∧ ∀ q ∈ r.banks, IsInt q

theorem apply_row_sys (running : List ℚ) (r : Row) (h : is_system_init r = true) :
    apply_row running r = reset_banks r := by
  unfold apply_row
  rw [if_pos h]

theorem apply_row_not_sys (running : List ℚ) (r : Row) (h : is_system_init r = false) :
    apply_row running r =
      (match idxOf? (strippedBank r) BANK_LIST with
        | some i => running.set i (running.getD i 0 + (r.credit - r.debit))
        | Option.none => running) := by
  unfold apply_row
  rw [if_neg (by rw [h]; exact Bool.false_ne_true)]

theorem range_map_getD {α : Type} (l : List α) (d : α) :
    (List.range l.length).map (fun i => l.getD i d) = l := by
  apply List.ext_getElem
  · simp
  · intro n h1 h2
    simp only [List.getElem_map, List.getElem_range]
    exact List.getD_eq_getElem l d h2

theorem reset_banks_of_length (r : Row) (h : r.banks.length = bankCount) :
    reset_banks r = r.banks := by
  unfold reset_banks
  rw [← h]
  exact range_map_getD r.banks 0

theorem apply_row_emit (running : List ℚ) (r : Row) :
    apply_row running (emit_row (apply_row running r) r) = apply_row running r := by
  by_cases hsys : is_system_init r = true
  · rw [apply_row_sys _ _
      (show is_system_init (emit_row (apply_row running r) r) = true from hsys),
      apply_row_sys _ _ hsys]
    exact reset_banks_of_length (emit_row (reset_banks r) r) (reset_banks_length r)
  · have hsys' : is_system_init r = false := by
      revert hsys; cases is_system_init r <;> simp
    rw [apply_row_not_sys _ _
      (show is_system_init (emit_row (apply_row running r) r) = false from hsys'),
      apply_row_not_sys _ _ hsys']
    rfl

theorem recomputeAux_idem (rows : List Row) : ∀ running : List ℚ,
    running.length = bankCount →
    recomputeAux running (recomputeAux running rows) = recomputeAux running rows := by
  induction rows with
  | nil => intro running _; rfl
  | cons r rs ih =>
    intro running h
    calc recomputeAux running (recomputeAux running (r :: rs))
        = emit_row (apply_row running (emit_row (apply_row running r) r))
            (emit_row (apply_row running r) r) ::
          recomputeAux (apply_row running (emit_row (apply_row running r) r))
            (recomputeAux (apply_row running r) rs) := rfl
      _ = emit_row (apply_row running r) (emit_row (apply_row running r) r) ::
          recomputeAux (apply_row running r) (recomputeAux (apply_row running r) rs) := by
            rw [apply_row_emit running r]
      _ = emit_row (apply_row running r) r :: recomputeAux (apply_row running r) rs := by
            rw [ih (apply_row running r) (apply_row_length running r h)]
            rfl
      _ = recomputeAux running (r :: rs) := rfl

theorem isInt_apply_row (running : List ℚ) (r : Row) (hrun : ∀ q ∈ running, IsInt q)
    (hr : RowIntIn r) : ∀ q ∈ apply_row running r, IsInt q := by
  unfold apply_row
  split
  · intro q hq
    unfold reset_banks at hq
    rw [List.mem_map] at hq
    obtain ⟨i, _, rfl⟩ := hq
    exact isInt_getD hr.2.2 i
  · split
    · intro q hq
      rcases List.mem_or_eq_of_mem_set hq with hm | hm
      · exact hrun q hm
      · subst hm
        exact (isInt_getD hrun _).add (hr.1.sub hr.2.1)
    · exact hrun

theorem recomputeAux_rowInt (rows : List Row) : ∀ running : List ℚ,
    (∀ q ∈ running, IsInt q) → (∀ r ∈ rows, RowIntIn r) →
    ∀ r' ∈ recomputeAux running rows, RowInt r' := by
  induction rows with
  | nil => intro running _ _ r' hr'; simp [recomputeAux] at hr'
  | cons x xs ih =>
    intro running hrun hrows r' hr'
    have hx : RowIntIn x := hrows x (List.mem_cons_self x xs)
    have hrun' : ∀ q ∈ apply_row running x, IsInt q := isInt_apply_row running x hrun hx
    have hr2 : r' ∈ emit_row (apply_row running x) x ::
        recomputeAux (apply_row running x) xs := hr'
    rcases List.mem_cons.mp hr2 with hm | hm
    · subst hm
      exact ⟨hx.1, hx.2.1, isInt_sum hrun', hrun'⟩
    · exact ih _ hrun' (fun r hr => hrows r (List.mem_cons_of_mem x hr)) r' hm

theorem zeroBanks_isInt : ∀ q ∈ zeroBanks, IsInt q := by
  intro q hq
  unfold zeroBanks at hq
  rw [List.mem_map] at hq
  obtain ⟨_, _, rfl⟩ := hq
  exact isInt_zero

theorem decodeRow_rowIntIn (w : RawRow) : RowIntIn (decodeRow w) := by
  refine ⟨parse_amount_idr_isInt _, parse_amount_idr_isInt _, ?_⟩
  intro q hq
  have hq' : q ∈ w.banks.map parse_amount_idr := hq
  rw [List.mem_map] at hq'
  obtain ⟨v, _, rfl⟩ := hq'
  exact parse_amount_idr_isInt v

theorem parse_amount_idr_num_int (q : ℚ) (h : IsInt q) : parse_amount_idr (.num q) = q := by
  obtain ⟨n, rfl⟩ := h
  exact roundCfg_intCast n

theorem pyInt_num_intCast (n : ℤ) : pyInt (.num (n : ℚ)) = n := pyTrunc_intCast n

theorem decode_materialize (r : Row) (h : RowInt r) : decodeRow (materializeRow r) = r := by
  cases r with
  | mk no tg uid bk kt cr db sa bks =>
    obtain ⟨hc, hd, hs, hb⟩ := h
    unfold decodeRow materializeRow
    simp only [Row.mk.injEq]
    refine ⟨pyInt_num_intCast no, trivial, trivial, trivial, trivial,
      parse_amount_idr_num_int _ hc, parse_amount_idr_num_int _ hd,
      parse_amount_idr_num_int _ hs, ?_⟩
    rw [List.map_map]
    calc bks.map (parse_amount_idr ∘ PyVal.num)
        = bks.map id := List.map_congr_left (fun a ha => parse_amount_idr_num_int a (hb a ha))
      _ = bks := List.map_id bks

/-- C3: recomputation is idempotent through materialization: writing the
recomputed snapshot back as raw rows in the store's column schema and
running the fetch-decode-recompute pipeline again yields the same
snapshot. -/
theorem C3_idempotent (raws : List RawRow) :
    recompute_pipeline (materialize (recompute_pipeline raws)) = recompute_pipeline raws := by
  unfold recompute_pipeline materialize
  rw [List.map_map]
  have hint : ∀ r' ∈ recompute_all_balances (raws.map decodeRow), RowInt r' :=
    recomputeAux_rowInt (raws.map decodeRow) zeroBanks zeroBanks_isInt
      (fun r hr => by
        rw [List.mem_map] at hr
        obtain ⟨w, _, rfl⟩ := hr
        exact decodeRow_rowIntIn w)
  have hmap : (recompute_all_balances (raws.map decodeRow)).map (decodeRow ∘ materializeRow) =
      recompute_all_balances (raws.map decodeRow) := by
    calc (recompute_all_balances (raws.map decodeRow)).map (decodeRow ∘ materializeRow)
        = (recompute_all_balances (raws.map decodeRow)).map id :=
          List.map_congr_left (fun r hr => decode_materialize r (hint r hr))
      _ = recompute_all_balances (raws.map decodeRow) := List.map_id _
  rw [hmap]
  exact recomputeAux_idem (raws.map decodeRow) zeroBanks zeroBanks_length

/-! ## C8: watcher behaviour on fetch failure -/

/-- C8 counterexample: the claim says a failed checksum fetch leaves the
connectivity flag `false` for that cycle, but the watcher does not touch
the flag at all: starting from a connected state, after a failed fetch the
flag is still `true`. -/
theorem C8_counterexample :
    ¬((watcher_cycle ⟨true, some "x"⟩
      (get_sheet_checksum (Except.error "boom"))).1.connected = false) := by
  decide

theorem watcher_run_length (st : WatchState) (fs : List (Option String)) :
    (watcher_run st fs).2.length = fs.length := by
  induction fs generalizing st with
  | nil => rfl
  | cons f fs ih =>
    show ((watcher_run (watcher_cycle st f).1 fs).1,
      (watcher_cycle st f).2 :: (watcher_run (watcher_cycle st f).1 fs).2).2.length = _
    rw [List.length_cons, ih, List.length_cons]

/-- C8 amended: when a checksum fetch fails during a watcher cycle
(`get_sheet_checksum` returns `None`), the watcher state — including the
connectivity flag, which is left at its previous value rather than being
set to `false` — is unchanged and no reload is dispatched; the polling
loop does not crash (the cycle is a total function); and the fetch is
retried on the next interval tick: the remaining schedule is processed
exactly as if the failed cycle had not happened, one fetch per configured
interval tick. -/
theorem C8_fetch_failure (st : WatchState) (e : String) (fs : List (Option String)) :
    watcher_cycle st (get_sheet_checksum (Except.error e)) = (st, false) ∧
    (watcher_run st (get_sheet_checksum (Except.error e) :: fs)).1 = (watcher_run st fs).1 ∧
    (watcher_run st (get_sheet_checksum (Except.error e) :: fs)).2 =
      false :: (watcher_run st fs).2 ∧
    (watcher_run st fs).2.length = fs.length :=
  ⟨rfl, rfl, rfl, watcher_run_length st fs⟩

/-! ## C9: checksum determinism and change sensitivity -/

/-- Numeric value of a lower-case hex digit. -/
def hexVal (c : Char) : ℕ :=
  if c.isDigit then c.toNat - '0'.toNat else c.toNat - 'a'.toNat + 10

/-- Partial inverse of `escChar`'s tail: read one escaped character back
from an escape body. Lax outside the encoder's image; on the image it
recovers exactly the encoded character (`unescTail_escTail`). -/
def unescTail : List Char → Option (Char × List Char)
  | '"' :: rest => some ('"', rest)
  | '\\' :: rest => some ('\\', rest)
  | 'n' :: rest => some ('\n', rest)
  | 't' :: rest => some ('\t', rest)
  | 'r' :: rest => some ('\r', rest)
  | 'b' :: rest => some (Char.ofNat 8, rest)
  | 'f' :: rest => some (Char.ofNat 12, rest)
  | 'u' :: _ :: _ :: h3 :: h4 :: rest => some (Char.ofNat (16 * hexVal h3 + hexVal h4), rest)
  | _ => Option.none

theorem hexVal_hexDigitChar : ∀ m : Fin 16, hexVal (hexDigitChar m.val) = m.val := by
  decide

theorem unescTail_escTail (c : Char) (h : needsEsc c = true) (A : List Char) :
    unescTail (escTail c ++ A) = some (c, A) := by
  by_cases h1 : c = '"'
  · subst h1; rw [show escTail '"' = ['"'] from rfl]; rfl
  · by_cases h2 : c = '\\'
    · subst h2; rw [show escTail '\\' = ['\\'] from rfl]; rfl
    · by_cases h3 : c = '\n'
      · subst h3; rw [show escTail '\n' = ['n'] from rfl]; rfl
      · by_cases h4 : c = '\t'
        · subst h4; rw [show escTail '\t' = ['t'] from rfl]; rfl
        · by_cases h5 : c = '\r'
          · subst h5; rw [show escTail '\r' = ['r'] from rfl]; rfl
          · by_cases h6 : c.toNat = 8
            · have he : escTail c = ['b'] := by
                unfold escTail
                rw [if_neg h1, if_neg h2, if_neg h3, if_neg h4, if_neg h5, if_pos h6]
              rw [he]
              show some (Char.ofNat 8, A) = some (c, A)
              rw [← h6, Char.ofNat_toNat]
            · by_cases h7 : c.toNat = 12
              · have he : escTail c = ['f'] := by
                  unfold escTail
                  rw [if_neg h1, if_neg h2, if_neg h3, if_neg h4, if_neg h5, if_neg h6,
                    if_pos h7]
                rw [he]
                show some (Char.ofNat 12, A) = some (c, A)
                rw [← h7, Char.ofNat_toNat]
              · have hlt : c.toNat < 32 := by
                  unfold needsEsc at h
                  simp only [Bool.or_eq_true, decide_eq_true_eq] at h
                  rcases h with (hc | hc) | hc
                  · exact absurd hc h1
                  · exact absurd hc h2
                  · exact hc
                have he : escTail c =
                    ['u', '0', '0', hexDigitChar (c.toNat / 16), hexDigitChar (c.toNat % 16)] := by
                  unfold escTail
                  rw [if_neg h1, if_neg h2, if_neg h3, if_neg h4, if_neg h5, if_neg h6,
                    if_neg h7]
                rw [he]
                show some (Char.ofNat (16 * hexVal (hexDigitChar (c.toNat / 16)) +
                  hexVal (hexDigitChar (c.toNat % 16))), A) = some (c, A)
                have hd1 : hexVal (hexDigitChar (c.toNat / 16)) = c.toNat / 16 :=
                  hexVal_hexDigitChar ⟨c.toNat / 16, by omega⟩
                have hd2 : hexVal (hexDigitChar (c.toNat % 16)) = c.toNat % 16 :=
                  hexVal_hexDigitChar ⟨c.toNat % 16, by omega⟩
                rw [hd1, hd2]
                have hn : 16 * (c.toNat / 16) + c.toNat % 16 = c.toNat := by omega
                rw [hn, Char.ofNat_toNat]

theorem escTail_append_inj (c₁ c₂ : Char) (h₁ : needsEsc c₁ = true)
    (h₂ : needsEsc c₂ = true) (A B : List Char)
    (heq : escTail c₁ ++ A = escTail c₂ ++ B) : c₁ = c₂ ∧ A = B := by
  have h := unescTail_escTail c₁ h₁ A
  rw [heq, unescTail_escTail c₂ h₂ B] at h
  injection h with h
  exact ⟨(Prod.mk.injEq _ _ _ _ ▸ h).1.symm, (Prod.mk.injEq _ _ _ _ ▸ h).2.symm⟩

theorem escChar_esc (c : Char) (h : needsEsc c = true) : escChar c = '\\' :: escTail c := by
  unfold escChar
  rw [if_pos h]

theorem escChar_verbatim (c : Char) (h : ¬(needsEsc c = true)) : escChar c = [c] := by
  unfold escChar
  rw [if_neg h]

theorem not_needsEsc (c : Char) (h : ¬(needsEsc c = true)) : c ≠ '"' ∧ c ≠ '\\' := by
  unfold needsEsc at h
  simp only [Bool.or_eq_true, decide_eq_true_eq, not_or] at h
  exact ⟨h.1.1, h.1.2⟩

theorem escList_nil : escList [] = [] := rfl

theorem escList_cons (c : Char) (t : List Char) :
    escList (c :: t) = escChar c ++ escList t := by
  unfold escList
  rw [List.map_cons, List.flatten_cons]

theorem escList_append_inj : ∀ s₁ s₂ r₁ r₂ : List Char,
    escList s₁ ++ '"' :: r₁ = escList s₂ ++ '"' :: r₂ → s₁ = s₂ ∧ r₁ = r₂ := by
  intro s₁
  induction s₁ with
  | nil =>
    intro s₂ r₁ r₂ heq
    cases s₂ with
    | nil =>
      rw [escList_nil, List.nil_append, List.nil_append] at heq
      injection heq with _ h2
      exact ⟨rfl, h2⟩
    | cons c t =>
      exfalso
      rw [escList_nil, List.nil_append, escList_cons, List.append_assoc] at heq
      by_cases hc : needsEsc c = true
      · rw [escChar_esc c hc] at heq
        injection heq with h1 _
        exact absurd h1 (by decide)
      · rw [escChar_verbatim c hc] at heq
        injection heq with h1 _
        exact (not_needsEsc c hc).1 h1.symm
  | cons c₁ t₁ ih =>
    intro s₂ r₁ r₂ heq
    cases s₂ with
    | nil =>
      exfalso
      rw [escList_nil, List.nil_append, escList_cons, List.append_assoc] at heq
      by_cases hc : needsEsc c₁ = true
      · rw [escChar_esc c₁ hc] at heq
        injection heq with h1 _
        exact absurd h1 (by decide)
      · rw [escChar_verbatim c₁ hc] at heq
        injection heq with h1 _
        exact (not_needsEsc c₁ hc).1 h1
    | cons c₂ t₂ =>
      rw [escList_cons, escList_cons, List.append_assoc, List.append_assoc] at heq
      by_cases hc1 : needsEsc c₁ = true
      · by_cases hc2 : needsEsc c₂ = true
        · rw [escChar_esc c₁ hc1, escChar_esc c₂ hc2] at heq
          injection heq with _ h2
          obtain ⟨hc, h3⟩ := escTail_append_inj c₁ c₂ hc1 hc2 _ _ h2
          obtain ⟨ht, hr⟩ := ih t₂ r₁ r₂ h3
          exact ⟨by rw [hc, ht], hr⟩
        · exfalso
          rw [escChar_esc c₁ hc1, escChar_verbatim c₂ hc2] at heq
          injection heq with h1 _
          exact (not_needsEsc c₂ hc2).2 h1.symm
      · by_cases hc2 : needsEsc c₂ = true
        · exfalso
          rw [escChar_verbatim c₁ hc1, escChar_esc c₂ hc2] at heq
          injection heq with h1 _
          exact (not_needsEsc c₁ hc1).2 h1
        · rw [escChar_verbatim c₁ hc1, escChar_verbatim c₂ hc2] at heq
          injection heq with h1 h2
          obtain ⟨ht, hr⟩ := ih t₂ r₁ r₂ h2
          exact ⟨by rw [h1, ht], hr⟩

theorem encStr_append_inj (s₁ s₂ : String) (r₁ r₂ : List Char)
    (heq : encStr s₁ ++ r₁ = encStr s₂ ++ r₂) : s₁ = s₂ ∧ r₁ = r₂ := by
  have h : '"' :: (escList s₁.data ++ ('"' :: r₁)) =
      '"' :: (escList s₂.data ++ ('"' :: r₂)) := by
    rw [show encStr s₁ ++ r₁ = '"' :: (escList s₁.data ++ ('"' :: r₁)) from by
        unfold encStr; rw [List.cons_append, List.append_assoc]; rfl,
      show encStr s₂ ++ r₂ = '"' :: (escList s₂.data ++ ('"' :: r₂)) from by
        unfold encStr; rw [List.cons_append, List.append_assoc]; rfl] at heq
    exact heq
  injection h with _ h2
  obtain ⟨hd, hr⟩ := escList_append_inj s₁.data s₂.data r₁ r₂ h2
  refine ⟨?_, hr⟩
  cases s₁
  cases s₂
  exact congrArg String.mk hd

theorem encRowBody_cons_eq (s : String) (t : List String) :
    ∃ Y : List Char, encRowBody (s :: t) = '"' :: Y := by
  cases t with
  | nil => exact ⟨escList s.data ++ ['"'], rfl⟩
  | cons s' t' =>
    refine ⟨(escList s.data ++ ['"']) ++ (',' :: encRowBody (s' :: t')), ?_⟩
    rw [show encRowBody (s :: s' :: t') = encStr s ++ ',' :: encRowBody (s' :: t') from rfl]
    rfl

theorem encRowBody_append_inj : ∀ r₁ r₂ : List String, ∀ A B : List Char,
    encRowBody r₁ ++ ']' :: A = encRowBody r₂ ++ ']' :: B → r₁ = r₂ ∧ A = B := by
  intro r₁
  induction r₁ with
  | nil =>
    intro r₂ A B heq
    cases r₂ with
    | nil =>
      rw [show encRowBody ([] : List String) = [] from rfl, List.nil_append,
        List.nil_append] at heq
      injection heq with _ h2
      exact ⟨rfl, h2⟩
    | cons s t =>
      exfalso
      obtain ⟨Y, hY⟩ := encRowBody_cons_eq s t
      rw [show encRowBody ([] : List String) = [] from rfl, List.nil_append, hY,
        List.cons_append] at heq
      injection heq with h1 _
      exact absurd h1 (by decide)
  | cons s₁ t₁ ih =>
    intro r₂ A B heq
    cases r₂ with
    | nil =>
      exfalso
      obtain ⟨Y, hY⟩ := encRowBody_cons_eq s₁ t₁
      rw [show encRowBody ([] : List String) = [] from rfl, List.nil_append, hY,
        List.cons_append] at heq
      injection heq with h1 _
      exact absurd h1 (by decide)
    | cons s₂ t₂ =>
      cases t₁ with
      | nil =>
        cases t₂ with
        | nil =>
          obtain ⟨hs, h2⟩ := encStr_append_inj s₁ s₂ _ _ heq
          injection h2 with _ h3
          exact ⟨by rw [hs], h3⟩
        | cons s₂' t₂' =>
          exfalso
          rw [show encRowBody (s₂ :: s₂' :: t₂') =
              encStr s₂ ++ ',' :: encRowBody (s₂' :: t₂') from rfl,
            List.append_assoc] at heq
          obtain ⟨_, h2⟩ := encStr_append_inj s₁ s₂ _ _ heq
          injection h2 with h3 _
          exact absurd h3 (by decide)
      | cons s₁' t₁' =>
        cases t₂ with
        | nil =>
          exfalso
          rw [show encRowBody (s₁ :: s₁' :: t₁') =
              encStr s₁ ++ ',' :: encRowBody (s₁' :: t₁') from rfl,
            List.append_assoc] at heq
          obtain ⟨_, h2⟩ := encStr_append_inj s₁ s₂ _ _ heq
          injection h2 with h3 _
          exact absurd h3 (by decide)
        | cons s₂' t₂' =>
          rw [show encRowBody (s₁ :: s₁' :: t₁') =
              encStr s₁ ++ ',' :: encRowBody (s₁' :: t₁') from rfl,
            show encRowBody (s₂ :: s₂' :: t₂') =
              encStr s₂ ++ ',' :: encRowBody (s₂' :: t₂') from rfl,
            List.append_assoc, List.append_assoc] at heq
          obtain ⟨hs, h2⟩ := encStr_append_inj s₁ s₂ _ _ heq
          injection h2 with _ h3
          obtain ⟨ht, hA⟩ := ih (s₂' :: t₂') A B h3
          exact ⟨by rw [hs, ht], hA⟩

theorem encRow_append_inj (r₁ r₂ : List String) (A B : List Char)
    (heq : encRow r₁ ++ A = encRow r₂ ++ B) : r₁ = r₂ ∧ A = B := by
  have h : '[' :: (encRowBody r₁ ++ (']' :: A)) = '[' :: (encRowBody r₂ ++ (']' :: B)) := by
    rw [show encRow r₁ ++ A = '[' :: (encRowBody r₁ ++ (']' :: A)) from by
        unfold encRow; rw [List.cons_append, List.append_assoc]; rfl,
      show encRow r₂ ++ B = '[' :: (encRowBody r₂ ++ (']' :: B)) from by
        unfold encRow; rw [List.cons_append, List.append_assoc]; rfl] at heq
    exact heq
  injection h with _ h2
  exact encRowBody_append_inj r₁ r₂ A B h2

theorem encGridBody_cons_eq (r : List String) (t : List (List String)) :
    ∃ Y : List Char, encGridBody (r :: t) = '[' :: Y := by
  cases t with
  | nil => exact ⟨encRowBody r ++ [']'], rfl⟩
  | cons r' t' =>
    refine ⟨(encRowBody r ++ [']']) ++ (',' :: encGridBody (r' :: t')), ?_⟩
    rw [show encGridBody (r :: r' :: t') = encRow r ++ ',' :: encGridBody (r' :: t') from rfl]
    rfl

theorem encGridBody_append_inj : ∀ g₁ g₂ : List (List String), ∀ A B : List Char,
    encGridBody g₁ ++ ']' :: A = encGridBody g₂ ++ ']' :: B → g₁ = g₂ ∧ A = B := by
  intro g₁
  induction g₁ with
  | nil =>
    intro g₂ A B heq
    cases g₂ with
    | nil =>
      rw [show encGridBody ([] : List (List String)) = [] from rfl, List.nil_append,
        List.nil_append] at heq
      injection heq with _ h2
      exact ⟨rfl, h2⟩
    | cons r t =>
      exfalso
      obtain ⟨Y, hY⟩ := encGridBody_cons_eq r t
      rw [show encGridBody ([] : List (List String)) = [] from rfl, List.nil_append, hY,
        List.cons_append] at heq
      injection heq with h1 _
      exact absurd h1 (by decide)
  | cons r₁ t₁ ih =>
    intro g₂ A B heq
    cases g₂ with
    | nil =>
      exfalso
      obtain ⟨Y, hY⟩ := encGridBody_cons_eq r₁ t₁
      rw [show encGridBody ([] : List (List String)) = [] from rfl, List.nil_append, hY,
        List.cons_append] at heq
      injection heq with h1 _
      exact absurd h1 (by decide)
    | cons r₂ t₂ =>
      cases t₁ with
      | nil =>
        cases t₂ with
        | nil =>
          obtain ⟨hr, h2⟩ := encRow_append_inj r₁ r₂ _ _ heq
          injection h2 with _ h3
          exact ⟨by rw [hr], h3⟩
        | cons r₂' t₂' =>
          exfalso
          rw [show encGridBody (r₂ :: r₂' :: t₂') =
              encRow r₂ ++ ',' :: encGridBody (r₂' :: t₂') from rfl,
            List.append_assoc] at heq
          obtain ⟨_, h2⟩ := encRow_append_inj r₁ r₂ _ _ heq
          injection h2 with h3 _
          exact absurd h3 (by decide)
      | cons r₁' t₁' =>
        cases t₂ with
        | nil =>
          exfalso
          rw [show encGridBody (r₁ :: r₁' :: t₁') =
              encRow r₁ ++ ',' :: encGridBody (r₁' :: t₁') from rfl,
            List.append_assoc] at heq
          obtain ⟨_, h2⟩ := encRow_append_inj r₁ r₂ _ _ heq
          injection h2 with h3 _
          exact absurd h3 (by decide)
        | cons r₂' t₂' =>
          rw [show encGridBody (r₁ :: r₁' :: t₁') =
              encRow r₁ ++ ',' :: encGridBody (r₁' :: t₁') from rfl,
            show encGridBody (r₂ :: r₂' :: t₂') =
              encRow r₂ ++ ',' :: encGridBody (r₂' :: t₂') from rfl,
            List.append_assoc, List.append_assoc] at heq
          obtain ⟨hr, h2⟩ := encRow_append_inj r₁ r₂ _ _ heq
          injection h2 with _ h3
          obtain ⟨ht, hA⟩ := ih (r₂' :: t₂') A B h3
          exact ⟨by rw [hr, ht], hA⟩

theorem packed_injective (X Y : List (List String)) (h : packed X = packed Y) : X = Y := by
  unfold packed at h
  injection h with _ h2
  exact (encGridBody_append_inj X Y [] [] h2).1

theorem sha1Combine_lt (t : ℕ × ℕ × ℕ × ℕ × ℕ) : sha1Combine t < 2 ^ 160 := by
  unfold sha1Combine
  have h0 : t.1 % w32 < w32 := Nat.mod_lt _ (by norm_num [w32])
  have h1 : t.2.1 % w32 < w32 := Nat.mod_lt _ (by norm_num [w32])
  have h2 : t.2.2.1 % w32 < w32 := Nat.mod_lt _ (by norm_num [w32])
  have h3 : t.2.2.2.1 % w32 < w32 := Nat.mod_lt _ (by norm_num [w32])
  have h4 : t.2.2.2.2 % w32 < w32 := Nat.mod_lt _ (by norm_num [w32])
  unfold w32 at *
  omega

theorem sha1Nat_lt (msg : List ℕ) : sha1Nat msg < 2 ^ 160 := sha1Combine_lt _

/-- C9 counterexample: the claim that any two grids differing in any cell
yield different digests is false in principle for any 160-bit digest: the
grids are infinitely many and the digests finitely many, so there exist
two different grids with the same checksum. -/
theorem C9_counterexample :
    ∃ X Y : List (List String), X ≠ Y ∧ compute_checksum X = compute_checksum Y := by
  obtain ⟨X, Y, hne, h⟩ := Finite.exists_ne_map_eq_of_infinite
    (fun g : List (List String) =>
      (⟨sha1Nat (utf8Encode (packed g)), sha1Nat_lt _⟩ : Fin (2 ^ 160)))
  refine ⟨X, Y, hne, ?_⟩
  unfold compute_checksum
  have hval : sha1Nat (utf8Encode (packed X)) = sha1Nat (utf8Encode (packed Y)) :=
    congrArg Fin.val h
  rw [hval]

/-- C9 amended: the checksum is deterministic (two computations over
byte-identical content yield the identical digest), and change
sensitivity holds at the canonical-encoding level: two grids that differ
in any cell produce different packed JSON payloads (the encoding is
injective). Digest-level distinctness cannot hold universally for a
160-bit hash (`C9_counterexample`); digest equality is therefore a
collision-free-modulo-SHA1 signal, not a mathematical guarantee. -/
theorem C9_checksum_properties (X Y : List (List String)) :
    compute_checksum X = compute_checksum X ∧ (X ≠ Y → packed X ≠ packed Y) :=
  ⟨rfl, fun hne hp => hne (packed_injective X Y hp)⟩

/-- Witness for C9 on two concrete one-cell grids. -/
theorem C9_witness :
    compute_checksum [["a"]] = compute_checksum [["a"]] ∧
    packed [["a"]] ≠ packed [["b"]] :=
  ⟨(C9_checksum_properties [["a"]] [["b"]]).1,
   (C9_checksum_properties [["a"]] [["b"]]).2 (by decide)⟩

/-! ## C7: parity verdict characterization -/

theorem lastRowOf_mem (rows : List Row) (h : rows ≠ []) : lastRowOf rows ∈ rows := by
  unfold lastRowOf
  rw [List.getLastD_eq_getLast?, List.getLast?_eq_getLast rows h]
  exact List.getLast_mem h

theorem creditTotal_isInt (rows : List Row) (h : ∀ r ∈ rows, RowInt r) :
    IsInt (creditTotal rows) :=
  isInt_sum (fun q hq => by
    rw [List.mem_map] at hq
    obtain ⟨r, hr, rfl⟩ := hq
    exact (h r hr).1)

theorem debitTotal_isInt (rows : List Row) (h : ∀ r ∈ rows, RowInt r) :
    IsInt (debitTotal rows) :=
  isInt_sum (fun q hq => by
    rw [List.mem_map] at hq
    obtain ⟨r, hr, rfl⟩ := hq
    exact (h r hr).2.1)

theorem int_tol_iff (a b : ℚ) (ha : IsInt a) (hb : IsInt b) :
    (|a - b| > tol) ↔ a ≠ b := by
  obtain ⟨m, rfl⟩ := ha
  obtain ⟨n, rfl⟩ := hb
  constructor
  · intro h hab
    rw [hab, sub_self, abs_zero] at h
    exact absurd h (by norm_num [tol])
  · intro hne
    have hmn : m - n ≠ 0 := by
      intro hc
      exact hne (by
        have : m = n := by omega
        rw [this])
    have h1 : (1 : ℚ) ≤ |(m : ℚ) - n| := by
      have hcast : ((m - n : ℤ) : ℚ) = (m : ℚ) - n := by push_cast; ring
      rw [← hcast, ← Int.cast_abs]
      have h2 : (1 : ℤ) ≤ |m - n| := Int.one_le_abs hmn
      exact_mod_cast h2
    calc tol < 1 := by norm_num [tol]
      _ ≤ |(m : ℚ) - n| := h1

theorem ite_singleton_ne_nil (P : Prop) [Decidable P] (x : String) :
    ((if P then [x] else []) ≠ []) ↔ P := by
  split <;> rename_i hp
  · simp [hp]
  · simp [hp]

theorem creditDiff_ne_nil_iff (api ui : List Row) (h1 : IsInt (creditTotal api))
    (h2 : IsInt (creditTotal ui)) :
    creditDiff api ui ≠ [] ↔ creditTotal api ≠ creditTotal ui := by
  unfold creditDiff
  rw [ite_singleton_ne_nil _ _]
  exact int_tol_iff _ _ h1 h2

theorem debitDiff_ne_nil_iff (api ui : List Row) (h1 : IsInt (debitTotal api))
    (h2 : IsInt (debitTotal ui)) :
    debitDiff api ui ≠ [] ↔ debitTotal api ≠ debitTotal ui := by
  unfold debitDiff
  rw [ite_singleton_ne_nil _ _]
  exact int_tol_iff _ _ h1 h2

theorem saldoDiff_ne_nil_iff (api ui : List Row)
    (h1 : IsInt (lastRowOf api).saldoAkhir) (h2 : IsInt (lastRowOf ui).saldoAkhir) :
    saldoDiff api ui ≠ [] ↔ (lastRowOf api).saldoAkhir ≠ (lastRowOf ui).saldoAkhir := by
  unfold saldoDiff
  rw [ite_singleton_ne_nil _ _]
  exact int_tol_iff _ _ h1 h2

theorem bankDiffs_ne_nil_iff (api ui : List Row)
    (h1 : ∀ q ∈ (lastRowOf api).banks, IsInt q) (h2 : ∀ q ∈ (lastRowOf ui).banks, IsInt q) :
    bankDiffs api ui ≠ [] ↔
      ∃ j, j < bankCount ∧
        (lastRowOf api).banks.getD j 0 ≠ (lastRowOf ui).banks.getD j 0 := by
  unfold bankDiffs
  rw [ne_eq, List.filterMap_eq_nil_iff]
  push_neg
  constructor
  · rintro ⟨j, hj, hcond⟩
    refine ⟨j, List.mem_range.mp hj, ?_⟩
    by_cases hx : |(lastRowOf api).banks.getD j 0 - (lastRowOf ui).banks.getD j 0| > tol
    · exact (int_tol_iff _ _ (isInt_getD h1 j) (isInt_getD h2 j)).mp hx
    · rw [if_neg hx] at hcond
      exact absurd rfl hcond
  · rintro ⟨j, hj, hne⟩
    refine ⟨j, List.mem_range.mpr hj, ?_⟩
    rw [if_pos ((int_tol_iff _ _ (isInt_getD h1 j) (isInt_getD h2 j)).mpr hne)]
    simp

theorem parityDiffs_ne_nil_iff (api ui : List Row)
    (hapi : ∀ r ∈ api, RowInt r) (hui : ∀ r ∈ ui, RowInt r) :
    parityDiffs api ui ≠ [] ↔ parityMismatch api ui := by
  unfold parityDiffs parityMismatch
  rw [ne_eq, List.append_eq_nil, not_and_or, ← ne_eq, ← ne_eq]
  apply or_congr
  · unfold countDiff
    split <;> rename_i hc
    · exact iff_of_true (by simp) hc
    · exact iff_of_false (by simp) hc
  · split <;> rename_i hne
    · obtain ⟨hA, hU⟩ := hne
      have hlastA := hapi _ (lastRowOf_mem api hA)
      have hlastU := hui _ (lastRowOf_mem ui hU)
      have hcollapse : (api ≠ [] ∧ ui ≠ [] ∧
          (creditTotal api ≠ creditTotal ui ∨ debitTotal api ≠ debitTotal ui ∨
            (lastRowOf api).saldoAkhir ≠ (lastRowOf ui).saldoAkhir ∨
            ∃ j, j < bankCount ∧
              (lastRowOf api).banks.getD j 0 ≠ (lastRowOf ui).banks.getD j 0)) ↔
          (creditTotal api ≠ creditTotal ui ∨ debitTotal api ≠ debitTotal ui ∨
            (lastRowOf api).saldoAkhir ≠ (lastRowOf ui).saldoAkhir ∨
            ∃ j, j < bankCount ∧
              (lastRowOf api).banks.getD j 0 ≠ (lastRowOf ui).banks.getD j 0) := by
        simp [hA, hU]
      rw [hcollapse]
      rw [ne_eq, List.append_eq_nil, not_and_or, ← ne_eq, ← ne_eq]
      apply or_congr (creditDiff_ne_nil_iff api ui (creditTotal_isInt api hapi)
        (creditTotal_isInt ui hui))
      rw [ne_eq, List.append_eq_nil, not_and_or, ← ne_eq, ← ne_eq]
      apply or_congr (debitDiff_ne_nil_iff api ui (debitTotal_isInt api hapi)
        (debitTotal_isInt ui hui))
      rw [ne_eq, List.append_eq_nil, not_and_or, ← ne_eq, ← ne_eq]
      exact or_congr (saldoDiff_ne_nil_iff api ui hlastA.2.2.1 hlastU.2.2.1)
        (bankDiffs_ne_nil_iff api ui hlastA.2.2.2 hlastU.2.2.2)
    · refine iff_of_false (by simp) ?_
      rintro ⟨h1, h2, _⟩
      exact hne ⟨h1, h2⟩

theorem renumber_map_credit (rows : List Row) :
    (renumber rows).map Row.credit = rows.map Row.credit := by
  unfold renumber
  rw [List.map_map]
  calc rows.enum.map (Row.credit ∘ fun p : ℕ × Row => { p.2 with no := (p.1 : ℤ) + 1 })
      = rows.enum.map (Row.credit ∘ Prod.snd) := rfl
    _ = (rows.enum.map Prod.snd).map Row.credit := by rw [List.map_map]
    _ = rows.map Row.credit := by rw [List.enum_map_snd]

theorem recomputeAux_map_credit (running : List ℚ) (rows : List Row) :
    (recomputeAux running rows).map Row.credit = rows.map Row.credit := by
  induction rows generalizing running with
  | nil => rfl
  | cons r rs ih =>
    show Row.credit (emit_row (apply_row running r) r) ::
      (recomputeAux (apply_row running r) rs).map Row.credit = _
    rw [ih]
    rfl

theorem creditTotal_api_snapshot (vals : List (List String)) :
    creditTotal (api_snapshot vals) =
      creditTotal ((vals.tail).map (decodeGridRow (vals.headD []))) := by
  unfold api_snapshot creditTotal
  rw [renumber_map_credit]
  show ((recomputeAux zeroBanks _).map Row.credit).sum = _
  rw [recomputeAux_map_credit]

theorem renumber_rowInt (rows : List Row) (h : ∀ r ∈ rows, RowInt r) :
    ∀ r ∈ renumber rows, RowInt r := by
  intro r hr
  unfold renumber at hr
  rw [List.mem_map] at hr
  obtain ⟨p, hp, rfl⟩ := hr
  have hmem : p.2 ∈ rows := by
    have h2 : p.2 ∈ rows.enum.map Prod.snd := List.mem_map_of_mem Prod.snd hp
    rwa [List.enum_map_snd] at h2
  exact h p.2 hmem

theorem decodeGridRow_rowIntIn (header row : List String) :
    RowIntIn (decodeGridRow header row) := by
  refine ⟨parse_chars_isInt _, parse_chars_isInt _, ?_⟩
  intro q hq
  have hq' : q ∈ BANK_LIST.map (fun b => parse_chars (cellFor header row b).data) := hq
  rw [List.mem_map] at hq'
  obtain ⟨b, _, rfl⟩ := hq'
  exact parse_chars_isInt _

theorem api_snapshot_rowInt (vals : List (List String)) :
    ∀ r ∈ api_snapshot vals, RowInt r := by
  unfold api_snapshot
  apply renumber_rowInt
  apply recomputeAux_rowInt _ zeroBanks zeroBanks_isInt
  intro r hr
  rw [List.mem_map] at hr
  obtain ⟨row, _, rfl⟩ := hr
  exact decodeGridRow_rowIntIn _ row

theorem api_snapshot_length (vals : List (List String)) :
    (api_snapshot vals).length = vals.tail.length := by
  unfold api_snapshot renumber
  rw [List.length_map, List.enum_length]
  show (recomputeAux zeroBanks _).length = _
  rw [recomputeAux_length, List.length_map]

theorem check_parity_ok_eval (vals : List (List String)) (cached : List Row)
    (hlen : 2 ≤ vals.length) :
    check_parity_against_api (.ok vals) cached =
      if parityDiffs (api_snapshot vals) cached ≠ [] then
        ⟨.Drift, some (parityDiffs (api_snapshot vals) cached)⟩
      else ⟨.OK, some ["Semua cocok (Dashboard = API)."]⟩ := by
  have hdec : ¬((vals.tail).map (decodeGridRow (vals.headD [])) = []) := by
    intro hc
    have h1 := congrArg List.length hc
    rw [List.length_map, List.length_tail] at h1
    simp at h1
    omega
  show (if vals.length < 2 then (⟨.Unknown, Option.none⟩ : ParityResult)
    else if (vals.tail).map (decodeGridRow (vals.headD [])) = [] then ⟨.Unknown, Option.none⟩
    else if parityDiffs (api_snapshot vals) cached ≠ [] then
      ⟨.Drift, some (parityDiffs (api_snapshot vals) cached)⟩
    else ⟨.OK, some ["Semua cocok (Dashboard = API)."]⟩) = _
  rw [if_neg (by omega), if_neg hdec]

/-- C7: with an integral cached snapshot (the only kind the pipeline
produces at precision 0), the parity check returns `Drift` exactly when
at least one of the five comparisons (row count; aggregate credit sum;
aggregate debit sum; last record's aggregate balance; last record's
per-account balance for every Account) differs between the freshly
recomputed snapshot and the cached snapshot — the code's `1e-6` float
tolerance collapses to exact inequality on whole-unit amounts, which is
the configured precision's smallest-unit tolerance; it returns `OK` when
all comparisons pass; an aggregate-credit mismatch in particular yields
`Drift` with a detail line naming the Total Credit mismatch; and any
fetch failure yields `Unknown` with the error captured in the details. -/
theorem C7_parity_verdict (vals : List (List String)) (cache : List Row) (e : String)
    (hlen : 2 ≤ vals.length) (hcache : ∀ r ∈ cache, RowInt r) :
    ((check_parity_against_api (.ok vals) cache).verdict = Verdict.Drift ↔
      parityMismatch (api_snapshot vals) cache) ∧
    ((check_parity_against_api (.ok vals) cache).verdict = Verdict.OK ↔
      ¬parityMismatch (api_snapshot vals) cache) ∧
    (api_snapshot vals ≠ [] → cache ≠ [] →
      creditTotal (api_snapshot vals) ≠ creditTotal cache →
      (check_parity_against_api (.ok vals) cache).verdict = Verdict.Drift ∧
      ∃ ds, (check_parity_against_api (.ok vals) cache).details = some ds ∧
        "Total Credit berbeda" ∈ ds) ∧
    check_parity_against_api (.error e) cache =
      ⟨Verdict.Unknown, some ["Gagal cek parity: " ++ e]⟩ := by
  have hiff := parityDiffs_ne_nil_iff (api_snapshot vals) cache (api_snapshot_rowInt vals)
    hcache
  have hstep := check_parity_ok_eval vals cache hlen
  refine ⟨?_, ?_, ?_, rfl⟩
  · by_cases hd : parityDiffs (api_snapshot vals) cache ≠ []
    · rw [hstep, if_pos hd]
      exact iff_of_true rfl (hiff.mp hd)
    · rw [hstep, if_neg hd]
      exact iff_of_false (fun hc => Verdict.noConfusion hc) (fun hm => hd (hiff.mpr hm))
  · by_cases hd : parityDiffs (api_snapshot vals) cache ≠ []
    · rw [hstep, if_pos hd]
      exact iff_of_false (fun hc => Verdict.noConfusion hc) (fun hc => hc (hiff.mp hd))
    · rw [hstep, if_neg hd]
      exact iff_of_true rfl (fun hm => hd (hiff.mpr hm))
  · intro hA hU hcr
    have hci := creditTotal_isInt (api_snapshot vals) (api_snapshot_rowInt vals)
    have hcu := creditTotal_isInt cache hcache
    have hmem : "Total Credit berbeda" ∈ parityDiffs (api_snapshot vals) cache := by
      unfold parityDiffs
      apply List.mem_append_right
      rw [if_pos ⟨hA, hU⟩]
      apply List.mem_append_left
      unfold creditDiff
      rw [if_pos ((int_tol_iff _ _ hci hcu).mpr hcr)]
      exact List.mem_singleton.mpr rfl
    have hd : parityDiffs (api_snapshot vals) cache ≠ [] := List.ne_nil_of_mem hmem
    rw [hstep, if_pos hd]
    exact ⟨rfl, parityDiffs (api_snapshot vals) cache, rfl, hmem⟩

/-- Witness cached snapshot for C7: one row with aggregate credit 100. -/
def c7cache : List Row :=
  [⟨1, "t", "u1", "BCA", "k", 100, 0, 100, List.replicate 11 0⟩]

/-- Witness source row for C7: aggregate credit 101 (1 unit more than
the cache). -/
def c7row : List String :=
  ["1", "t", "u1", "BCA", "k", "101", "0", "101",
   "101", "0", "0", "0", "0", "0", "0", "0", "0", "0", "0"]

/-- Witness fetched grid for C7. -/
def c7grid : List (List String) := [HEADERS, c7row]

/-- Witness for C7: a source aggregate credit differing by 1 unit from
the cache yields `Drift` with a detail line naming the Total Credit
mismatch. -/
theorem C7_witness :
    (check_parity_against_api (.ok c7grid) c7cache).verdict = Verdict.Drift ∧
    ∃ ds, (check_parity_against_api (.ok c7grid) c7cache).details = some ds ∧
      "Total Credit berbeda" ∈ ds := by
  have hcache : ∀ r ∈ c7cache, RowInt r := by
    intro r hr
    have hr' : r ∈ [(⟨1, "t", "u1", "BCA", "k", 100, 0, 100,
        List.replicate 11 0⟩ : Row)] := hr
    rw [List.mem_singleton] at hr'
    subst hr'
    refine ⟨⟨100, by norm_num⟩, ⟨0, by norm_num⟩, ⟨100, by norm_num⟩, ?_⟩
    intro q hq
    have hq' : q ∈ List.replicate 11 (0 : ℚ) := hq
    rw [List.eq_of_mem_replicate hq']
    exact isInt_zero
  have hlenA : (api_snapshot c7grid).length = 1 := by
    rw [api_snapshot_length]
    rfl
  have hA : api_snapshot c7grid ≠ [] := by
    intro hc
    rw [hc] at hlenA
    simp at hlenA
  have hU : c7cache ≠ [] := List.cons_ne_nil _ _
  have hcell : cellFor (c7grid.headD []) c7row "Credit" = "101" := by decide
  have hcredit : creditTotal (api_snapshot c7grid) ≠ creditTotal c7cache := by
    have h1 : creditTotal (api_snapshot c7grid) = parse_chars "101".data := by
      rw [creditTotal_api_snapshot]
      calc creditTotal [decodeGridRow (c7grid.headD []) c7row]
          = (decodeGridRow (c7grid.headD []) c7row).credit := by
            simp [creditTotal]
        _ = parse_chars (cellFor (c7grid.headD []) c7row "Credit").data := rfl
        _ = parse_chars "101".data := by rw [hcell]
    have h2 : parse_chars "101".data = 101 := by
      rw [parse_chars_eval "101".data "101".data "101".data [] 101
        (by decide) (by decide) (by decide) (by decide)
        (by rw [pyFloatVal_eval "101".data [] 101 0 0 (by decide) (by decide) (by decide)]
            norm_num)]
      rw [roundCfg_eq]
      have h3 : ((101 : ℤ) : ℚ) = 101 := by norm_num
      rw [← h3, pythonRound_intCast]
    have h4 : creditTotal c7cache = 100 := by
      simp [creditTotal, c7cache]
    rw [h1, h2, h4]
    norm_num
  exact (C7_parity_verdict c7grid c7cache "" (by decide) hcache).2.2.1 hA hU hcredit

end Dashboard
